import Mathlib

/-!
Shallow embedding of the `gf.TiledLayer` tile-streaming renderer
(`src/src/input/InputManager.js`, appended TiledLayer document).

The layer state consists of the live tile grid (`this.tiles`, modelled as an
association list from tile coordinates to node indices; a `null` entry in the
JS map is modelled as absence), the node pool (`this._tilePool`, pushed at the
end and popped from the end like a JS array), the array of visual tile nodes
ever created (`nodes`, indexed by creation order), the four edge-buffered
flags, the pixel pan accumulator `_panDelta` and the rendered rectangle
`_rendered` with its derived `left/right/top/bottom` fields (synced by
`_updateRenderSq`).

Pixel deltas and tile coordinates are modelled as integers; node pixel
positions as rationals (the isometric projection divides the tile size by 2).
External collaborators (`parent.getTileset`, tileset texture and property
lookups) are fields of the context.
-/

/-- Per-tile property set returned by `Tileset.getTileProperties`.
`none` models a JS `undefined` field. -/
structure TileProps where
  hitArea : Option ℕ
  isCollidable : Bool
  type : Option ℕ
  interactive : Option Bool
  interactiveTiles : Option Bool
deriving DecidableEq, Repr

/-- Free-form property map carried by a tileset, the layer, or the map
(only the fields the core reads). -/
structure LayerProps where
  interactive : Option Bool
  interactiveTiles : Option Bool
  tileHitArea : Option ℕ
deriving DecidableEq, Repr

/-- External tileset collaborator (`this.parent.getTileset(tileId)` result). -/
structure Tileset where
  tileSize : ℤ × ℤ
  tileoffset : ℤ × ℤ
  properties : LayerProps
  getTileTexture : ℕ → ℕ
  getTileProperties : ℕ → TileProps

/-- Everything the layer reads from its construction settings and from its
parent map: the flat tile-id array, the layer and map sizes in tiles, the
tile pixel sizes, the parent camera position, the orientation and the
tileset resolver, plus the layer and map property maps. -/
structure Ctx where
  tileIds : List ℕ
  sizeL : ℤ × ℤ
  sizeP : ℤ × ℤ
  tileSizeP : ℤ × ℤ
  scaledTileSize : ℤ × ℤ
  parentPosition : ℤ × ℤ
  orientationIso : Bool
  getTileset : ℕ → Option Tileset
  layerProperties : LayerProps
  mapProperties : LayerProps

/-- Mutable state of one visual tile node (a `gf.Tile` sprite): the fields
the core writes when binding or releasing. `callbacksOn` records whether the
seven pointer callbacks are currently assigned. -/
structure NodeR where
  texture : ℕ
  visible : Bool
  physicsOn : Bool
  callbacksOn : Bool
  pos : ℚ × ℚ
  interactive : Bool
  collisionType : Option ℕ
  hitArea : Option ℕ
deriving DecidableEq, Repr

/-- Default field values of a fresh node before any binding. -/
def defaultNode : NodeR :=
  { texture := 0, visible := true, physicsOn := false, callbacksOn := false,
    pos := (0, 0), interactive := false, collisionType := none, hitArea := none }

/-- `this._rendered`: the `gf.Rectangle` plus the derived bounds that
`_updateRenderSq` maintains. -/
structure Rect where
  x : ℤ
  y : ℤ
  width : ℤ
  height : ℤ
  left : ℤ
  right : ℤ
  top : ℤ
  bottom : ℤ
deriving DecidableEq, Repr

/-- `this._buffered`: the four edge-buffered flags. -/
structure Buffered where
  left : Bool
  right : Bool
  top : Bool
  bottom : Bool
deriving DecidableEq, Repr

/-- Full mutable state of the layer. -/
structure TState where
  tiles : List ((ℤ × ℤ) × ℕ)
  tilePool : List ℕ
  nodes : List NodeR
  buffered : Buffered
  panX : ℤ
  panY : ℤ
  rendered : Rect
deriving DecidableEq, Repr

/-- `this.tiles[c.1] && this.tiles[c.1][c.2]` as an association-list lookup. -/
def lookupTile : List ((ℤ × ℤ) × ℕ) → ℤ × ℤ → Option ℕ
  | [], _ => none
  | p :: ts, c => if p.1 = c then some p.2 else lookupTile ts c

/-- Removing a coordinate from the grid (`this.tiles[x][y] = null` /
`delete this.tiles[x][y]`). -/
def eraseTile : List ((ℤ × ℤ) × ℕ) → ℤ × ℤ → List ((ℤ × ℤ) × ℕ)
  | [], _ => []
  | p :: ts, c => if p.1 = c then eraseTile ts c else p :: eraseTile ts c

/-- `this.tiles[toX][toY] = tile`: overwrites whatever was stored there. -/
def insertTile (ts : List ((ℤ × ℤ) × ℕ)) (c : ℤ × ℤ) (n : ℕ) :
    List ((ℤ × ℤ) × ℕ) :=
  (c, n) :: eraseTile ts c

/-- Functional update of the node store at one index (out-of-range is a
no-op, as JS array writes are only issued for existing nodes). -/
def updNode : List NodeR → ℕ → (NodeR → NodeR) → List NodeR
  | [], _, _ => []
  | n :: ns, 0, f => f n :: ns
  | n :: ns, i + 1, f => n :: updNode ns i f

/-- Read a node record by index. -/
def getNode (s : TState) (i : ℕ) : NodeR := s.nodes.getD i defaultNode

/-- `this.tileIds[idx]` on a `Uint32Array`: out-of-range reads (negative or
past the end) give `undefined`, modelled as `none`. -/
def tileIdAt (ctx : Ctx) (idx : ℤ) : Option ℕ :=
  if h : 0 ≤ idx ∧ idx.toNat < ctx.tileIds.length then
    some (ctx.tileIds.get ⟨idx.toNat, h.2⟩)
  else none

/-- The tile id at the target coordinate and its tileset, when resolvable:
`id = toTileX + toTileY * this.size.x; tileId = this.tileIds[id];
set = this.parent.getTileset(tileId)`.  `getTileset(undefined)` is `none`. -/
def resolveTileset (ctx : Ctx) (toTileX toTileY : ℤ) : Option (ℕ × Tileset) :=
  match tileIdAt ctx (toTileX + toTileY * ctx.sizeL.1) with
  | none => none
  | some tileId =>
    match ctx.getTileset tileId with
    | none => none
    | some set => some (tileId, set)

/-- `_getInteractive(set, o)`: the four-level fallback chain.  The JS guard
`set && ...` is always true at the call site (the caller returns early when
the tileset is missing), so `set` is a plain argument here.  The chosen
source `v` yields `!!(v.interactive || v.interactiveTiles)`. -/
def getInteractive (ctx : Ctx) (set : Tileset) (o : TileProps) : Bool :=
  let v : Option (Option Bool × Option Bool) :=
    if o.interactive.isSome || o.interactiveTiles.isSome then
      some (o.interactive, o.interactiveTiles)
    else if set.properties.interactive.isSome ||
        set.properties.interactiveTiles.isSome then
      some (set.properties.interactive, set.properties.interactiveTiles)
    else if ctx.layerProperties.interactive.isSome ||
        ctx.layerProperties.interactiveTiles.isSome then
      some (ctx.layerProperties.interactive, ctx.layerProperties.interactiveTiles)
    else if ctx.mapProperties.interactive.isSome ||
        ctx.mapProperties.interactiveTiles.isSome then
      some (ctx.mapProperties.interactive, ctx.mapProperties.interactiveTiles)
    else none
  match v with
  | some pr => pr.1.getD false || pr.2.getD false
  | none => false

/-- The pixel position computed in `moveTileSprite` for the target tile:
isometric or orthogonal, with the tileset offset, exactly as in the source
(`this.parent.tileSize` is `pTile`, `set.tileSize` is `sTile`,
`set.tileoffset` is `sOff`). -/
def tilePosition (iso : Bool) (pTile sTile sOff : ℤ × ℤ)
    (toTileX toTileY : ℤ) : ℚ × ℚ :=
  if iso then
    ((toTileX * ((pTile.1 : ℚ) / 2)) - (toTileY * ((pTile.1 : ℚ) / 2)) +
       ((pTile.1 : ℚ) - (sTile.1 : ℚ)) + (sOff.1 : ℚ),
     (toTileY * ((pTile.2 : ℚ) / 2)) + (toTileX * ((pTile.2 : ℚ) / 2)) +
       ((pTile.2 : ℚ) - (sTile.2 : ℚ)) + (sOff.2 : ℚ))
  else
    ((toTileX * (pTile.1 : ℚ)) + (sOff.1 : ℚ),
     (toTileY * (pTile.2 : ℚ)) + (sOff.2 : ℚ))

/-- `new gf.Tile(texture)`: a fresh, visible sprite with no physics or
callbacks attached yet. -/
def newTileNode (texture : ℕ) : NodeR :=
  { defaultNode with texture := texture }

/-- The binding block of `moveTileSprite`: `enablePhysics` when collidable,
then `setTexture`, `setPosition`, `setInteractive`, `collisionType`,
`visible = true`, `hitArea`, and the pointer callbacks when interactive.
Physics is never disabled here, and existing callbacks are never removed. -/
def rebindNode (ctx : Ctx) (set : Tileset) (tileId : ℕ)
    (toTileX toTileY : ℤ) (nd : NodeR) : NodeR :=
  let texture := set.getTileTexture tileId
  let props := set.getTileProperties tileId
  let hitArea :=
    match props.hitArea with
    | some h => some h
    | none => set.properties.tileHitArea
  let interactive := getInteractive ctx set props
  let position := tilePosition ctx.orientationIso ctx.tileSizeP set.tileSize
    set.tileoffset toTileX toTileY
  let nd := if props.isCollidable then { nd with physicsOn := true } else nd
  let nd := { nd with texture := texture, pos := position,
                      interactive := interactive, collisionType := props.type,
                      visible := true, hitArea := hitArea }
  if interactive then { nd with callbacksOn := true } else nd

/-- `moveTileSprite(fromTileX, fromTileY, toTileX, toTileY)`.
When the target tile id has no tileset, the from-node (if any) is hidden and
pushed to the pool (physics is NOT disabled on this path).  Otherwise the
from-node is reused if live, else the pool is popped, else a new node is
created; the node is rebound and stored at the target coordinate
(overwriting any previous occupant there). -/
def moveTileSprite (ctx : Ctx) (s : TState)
    (fromTileX fromTileY toTileX toTileY : ℤ) : TState :=
  match resolveTileset ctx toTileX toTileY with
  | none =>
    match lookupTile s.tiles (fromTileX, fromTileY) with
    | some t =>
      { s with tiles := eraseTile s.tiles (fromTileX, fromTileY),
               nodes := updNode s.nodes t (fun nd => { nd with visible := false }),
               tilePool := s.tilePool ++ [t] }
    | none => s
  | some (tileId, set) =>
    let fromEntry := lookupTile s.tiles (fromTileX, fromTileY)
    let tiles₁ :=
      match fromEntry with
      | some _ => eraseTile s.tiles (fromTileX, fromTileY)
      | none => s.tiles
    let pool₁ :=
      match fromEntry with
      | some _ => s.tilePool
      | none => s.tilePool.dropLast
    let popped : Option ℕ :=
      match fromEntry with
      | some t => some t
      | none => s.tilePool.getLast?
    let tile :=
      match popped with
      | some t => t
      | none => s.nodes.length
    let nodes₁ :=
      match popped with
      | some _ => s.nodes
      | none => s.nodes ++ [newTileNode (set.getTileTexture tileId)]
    { s with tiles := insertTile tiles₁ (toTileX, toTileY) tile,
             tilePool := pool₁,
             nodes := updNode nodes₁ tile (rebindNode ctx set tileId toTileX toTileY) }

/-- Release of one node in `clearTiles`: `tile.visible = false;
tile.disablePhysics()`. -/
def hideRelease (ns : List NodeR) (t : ℕ) : List NodeR :=
  updNode ns t (fun nd => { nd with visible := false, physicsOn := false })

/-- `clearTiles()`: every live node is hidden, its physics disabled, and
pushed to the pool; the grid is emptied. -/
def clearTiles (s : TState) : TState :=
  { s with tiles := [],
           nodes := (s.tiles.map (·.2)).foldl hideRelease s.nodes,
           tilePool := s.tilePool ++ s.tiles.map (·.2) }

/-- `_updateRenderSq()`. -/
def updateRenderSq (r : Rect) : Rect :=
  { r with left := r.x, right := r.x + r.width - 1,
           top := r.y, bottom := r.y + r.height - 1 }

/-- The coordinates visited by the `renderTiles` double loop
(`x` from `startX` while `< endX`, inner `y` from `startY` while `< endY`). -/
def cellList (startX startY endX endY : ℤ) : List (ℤ × ℤ) :=
  (List.range (endX - startX).toNat).flatMap (fun (i : ℕ) =>
    (List.range (endY - startY).toNat).map (fun (j : ℕ) =>
      (startX + (i : ℤ), startY + (j : ℤ))))

/-- JS `a % b` on integers (remainder with the sign of the dividend, i.e.
truncated division).  `b = 0` gives NaN in JS and is never exercised here. -/
def jsMod (a b : ℤ) : ℤ := a - b * (a.tdiv b)

/-- `renderTiles(startX, startY, numX, numY)`: clear, clamp, refill, set the
rendered rectangle, reset the buffered flags and the pan accumulator. -/
def renderTiles (ctx : Ctx) (s : TState)
    (startX0 startY0 numX numY : ℤ) : TState :=
  let s := clearTiles s
  let startX := if startX0 < 0 then 0 else startX0
  let startY := if startY0 < 0 then 0 else startY0
  let endX := if startX + numX ≤ ctx.sizeP.1 then startX + numX
    else ctx.sizeP.1 - startX
  let endY := if startY + numY ≤ ctx.sizeP.2 then startY + numY
    else ctx.sizeP.2 - startY
  let s := (cellList startX startY endX endY).foldl
    (fun t c => moveTileSprite ctx t c.1 c.2 c.1 c.2) s
  let r := { s.rendered with x := startX, y := startY,
                             width := endX - startX, height := endY - startY }
  { s with rendered := updateRenderSq r,
           buffered := { left := false, right := false, top := false, bottom := false },
           panX := jsMod ctx.parentPosition.1 ctx.scaledTileSize.1,
           panY := jsMod ctx.parentPosition.2 ctx.scaledTileSize.2 }

/-- `_renderLeft(forceNew)`: move the far-right column (or fresh nodes when
forcing) to the column left of the window, then shift the rectangle left
(and widen it when forcing). -/
def renderLeft (ctx : Ctx) (forceNew : Bool) (s : TState) : TState :=
  let r := s.rendered
  let s := (List.range r.height.toNat).foldl
    (fun t (i : ℕ) => moveTileSprite ctx t
      (if forceNew then -1 else r.right)
      (if forceNew then -1 else r.top + (i : ℤ))
      (r.left - 1) (r.top + (i : ℤ))) s
  let r2 := { s.rendered with x := s.rendered.x - 1 }
  let r2 := if forceNew then { r2 with width := r2.width + 1 } else r2
  { s with rendered := updateRenderSq r2 }

/-- `_renderRight(forceNew)`. -/
def renderRight (ctx : Ctx) (forceNew : Bool) (s : TState) : TState :=
  let r := s.rendered
  let s := (List.range r.height.toNat).foldl
    (fun t (i : ℕ) => moveTileSprite ctx t
      (if forceNew then -1 else r.left)
      (if forceNew then -1 else r.top + (i : ℤ))
      (r.right + 1) (r.top + (i : ℤ))) s
  let r2 := if forceNew then s.rendered else { s.rendered with x := s.rendered.x + 1 }
  let r2 := if forceNew then { r2 with width := r2.width + 1 } else r2
  { s with rendered := updateRenderSq r2 }

/-- `_renderUp(forceNew)`. -/
def renderUp (ctx : Ctx) (forceNew : Bool) (s : TState) : TState :=
  let r := s.rendered
  let s := (List.range r.width.toNat).foldl
    (fun t (i : ℕ) => moveTileSprite ctx t
      (if forceNew then -1 else r.left + (i : ℤ))
      (if forceNew then -1 else r.bottom)
      (r.left + (i : ℤ)) (r.top - 1)) s
  let r2 := { s.rendered with y := s.rendered.y - 1 }
  let r2 := if forceNew then { r2 with height := r2.height + 1 } else r2
  { s with rendered := updateRenderSq r2 }

/-- `_renderDown(forceNew)`. -/
def renderDown (ctx : Ctx) (forceNew : Bool) (s : TState) : TState :=
  let r := s.rendered
  let s := (List.range r.width.toNat).foldl
    (fun t (i : ℕ) => moveTileSprite ctx t
      (if forceNew then -1 else r.left + (i : ℤ))
      (if forceNew then -1 else r.top)
      (r.left + (i : ℤ)) (r.bottom + 1)) s
  let r2 := if forceNew then s.rendered else { s.rendered with y := s.rendered.y + 1 }
  let r2 := if forceNew then { r2 with height := r2.height + 1 } else r2
  { s with rendered := updateRenderSq r2 }

/-- Number of iterations of `while(p >= t) { ...; p -= t }` for a fixed
positive `t` (zero when `t ≤ 0`: the JS loop would not terminate there, and
the core only ever uses positive tile sizes). -/
def shiftCountPos (p t : ℤ) : ℕ :=
  if 0 < t ∧ t ≤ p then (p / t).toNat else 0

/-- Number of iterations of `while(p <= -t) { ...; p += t }` for positive `t`. -/
def shiftCountNeg (p t : ℤ) : ℕ :=
  if 0 < t ∧ p ≤ -t then ((-p) / t).toNat else 0

/-- Iterate a state transformer. -/
def iterateN (f : TState → TState) : ℕ → TState → TState
  | 0, s => s
  | n + 1, s => iterateN f n (f s)

/-- `pan(dx, dy)`: accumulate the delta, run the (at most one) edge-buffer
step, then the four threshold `while` loops.  Each loop body leaves the
accumulator's comparison target untouched, so the loop runs a predetermined
number of times (`shiftCountPos`/`shiftCountNeg`) and subtracts that many
whole tile sizes from the accumulator. -/
def pan (ctx : Ctx) (s : TState) (dx dy : ℤ) : TState :=
  let s := { s with panX := s.panX + dx, panY := s.panY + dy }
  let s :=
    if dx > 0 ∧ s.buffered.left = false then
      renderLeft ctx true { s with buffered := { s.buffered with left := true } }
    else if dx < 0 ∧ s.buffered.right = false then
      renderRight ctx true { s with buffered := { s.buffered with right := true } }
    else if dy > 0 ∧ s.buffered.top = false then
      renderUp ctx true { s with buffered := { s.buffered with top := true } }
    else if dy < 0 ∧ s.buffered.bottom = false then
      renderDown ctx true { s with buffered := { s.buffered with bottom := true } }
    else s
  let n₁ := shiftCountPos s.panX ctx.scaledTileSize.1
  let s := iterateN (renderLeft ctx false) n₁
    { s with panX := s.panX - (n₁ : ℤ) * ctx.scaledTileSize.1 }
  let n₂ := shiftCountNeg s.panX ctx.scaledTileSize.1
  let s := iterateN (renderRight ctx false) n₂
    { s with panX := s.panX + (n₂ : ℤ) * ctx.scaledTileSize.1 }
  let n₃ := shiftCountPos s.panY ctx.scaledTileSize.2
  let s := iterateN (renderUp ctx false) n₃
    { s with panY := s.panY - (n₃ : ℤ) * ctx.scaledTileSize.2 }
  let n₄ := shiftCountNeg s.panY ctx.scaledTileSize.2
  let s := iterateN (renderDown ctx false) n₄
    { s with panY := s.panY + (n₄ : ℤ) * ctx.scaledTileSize.2 }
  s

/-- The state right after the `gf.TiledLayer` constructor: empty grid, empty
pool, no nodes, no buffered edges, zero accumulator,
`_rendered = gf.Rectangle(0,0,0,0)` (derived bounds not yet synced, but they
are never read before the first `_updateRenderSq`). -/
def initState : TState :=
  { tiles := [], tilePool := [], nodes := [],
    buffered := { left := false, right := false, top := false, bottom := false },
    panX := 0, panY := 0,
    rendered := { x := 0, y := 0, width := 0, height := 0,
                  left := 0, right := 0, top := 0, bottom := 0 } }

/-- One host-facing call. -/
inductive HostOp
  | render (startX startY numX numY : ℤ)
  | clear
  | panBy (dx dy : ℤ)

/-- Apply one host call. -/
def applyOp (ctx : Ctx) (s : TState) : HostOp → TState
  | .render a b c d => renderTiles ctx s a b c d
  | .clear => clearTiles s
  | .panBy dx dy => pan ctx s dx dy

/-- Run a sequence of host calls. -/
def runOps (ctx : Ctx) (s : TState) (ops : List HostOp) : TState :=
  ops.foldl (applyOp ctx) s

/-- Run a sequence of pan calls. -/
def runPans (ctx : Ctx) (s : TState) (ds : List (ℤ × ℤ)) : TState :=
  ds.foldl (fun t d => pan ctx t d.1 d.2) s

/-- A sequence of `moveTileSprite` calls, as performed by the loops in
`renderTiles` and the four `_render*` helpers (each element is the
(from, to) coordinate pair of one call). -/
def moveSeq (ctx : Ctx) (ps : List ((ℤ × ℤ) × (ℤ × ℤ))) (s : TState) : TState :=
  ps.foldl (fun t p => moveTileSprite ctx t p.1.1 p.1.2 p.2.1 p.2.2) s

/-! ### The four shift helpers as `moveSeq` instances -/

/-- The (from, to) pairs of the `_renderLeft` loop over rectangle `r`. -/
def leftPairs (forceNew : Bool) (r : Rect) : List ((ℤ × ℤ) × (ℤ × ℤ)) :=
  (List.range r.height.toNat).map (fun (i : ℕ) =>
    ((if forceNew then -1 else r.right, if forceNew then -1 else r.top + (i : ℤ)),
     (r.left - 1, r.top + (i : ℤ))))

/-- The (from, to) pairs of the `_renderRight` loop over rectangle `r`. -/
def rightPairs (forceNew : Bool) (r : Rect) : List ((ℤ × ℤ) × (ℤ × ℤ)) :=
  (List.range r.height.toNat).map (fun (i : ℕ) =>
    ((if forceNew then -1 else r.left, if forceNew then -1 else r.top + (i : ℤ)),
     (r.right + 1, r.top + (i : ℤ))))

/-- The (from, to) pairs of the `_renderUp` loop over rectangle `r`. -/
def upPairs (forceNew : Bool) (r : Rect) : List ((ℤ × ℤ) × (ℤ × ℤ)) :=
  (List.range r.width.toNat).map (fun (i : ℕ) =>
    ((if forceNew then -1 else r.left + (i : ℤ), if forceNew then -1 else r.bottom),
     (r.left + (i : ℤ), r.top - 1)))

/-- The (from, to) pairs of the `_renderDown` loop over rectangle `r`. -/
def downPairs (forceNew : Bool) (r : Rect) : List ((ℤ × ℤ) × (ℤ × ℤ)) :=
  (List.range r.width.toNat).map (fun (i : ℕ) =>
    ((if forceNew then -1 else r.left + (i : ℤ), if forceNew then -1 else r.top),
     (r.left + (i : ℤ), r.bottom + 1)))

/-! ### The layer invariant -/

/-- A coordinate lies inside the rendered rectangle (in its primary
`x/y/width/height` form). -/
def inRect (r : Rect) (c : ℤ × ℤ) : Prop :=
  r.x ≤ c.1 ∧ c.1 < r.x + r.width ∧ r.y ≤ c.2 ∧ c.2 < r.y + r.height

instance (r : Rect) (c : ℤ × ℤ) : Decidable (inRect r c) := by
  unfold inRect
  infer_instance

/-- The derived `left/right/top/bottom` fields agree with the primary
rectangle fields (established by `_updateRenderSq`). -/
def Synced (r : Rect) : Prop :=
  r.left = r.x ∧ r.right = r.x + r.width - 1 ∧
  r.top = r.y ∧ r.bottom = r.y + r.height - 1

/-- The reachable-state invariant used for the window-containment and
conservation claims: live coordinates lie in the rendered rectangle, grid
keys are distinct, the node indices in grid-plus-pool are a permutation of
all created node indices, the rectangle's derived bounds are synced and the
window has positive width and height. -/
def LayerInv (s : TState) : Prop :=
  (∀ c ∈ s.tiles.map (·.1), inRect s.rendered c) ∧
  ((s.tiles.map (·.1)).Nodup) ∧
  List.Perm (s.tiles.map (·.2) ++ s.tilePool) (List.range s.nodes.length) ∧
  Synced s.rendered ∧ 1 ≤ s.rendered.width ∧ 1 ≤ s.rendered.height

/-- The grid-pool/created bijection on its own (all that `renderTiles` needs
from the incoming state). -/
def ConsState (s : TState) : Prop :=
  List.Perm (s.tiles.map (·.2) ++ s.tilePool) (List.range s.nodes.length)

/-! ### Validity predicates, spec-side definitions, concrete instances -/

/-- A `renderTiles` argument tuple with nonnegative in-bounds start and a
positive window (under which the clamps are no-ops). -/
def ValidRenderArgs (ctx : Ctx) (a b nx ny : ℤ) : Prop :=
  0 ≤ a ∧ 0 ≤ b ∧ 1 ≤ nx ∧ 1 ≤ ny ∧ a + nx ≤ ctx.sizeP.1 ∧ b + ny ≤ ctx.sizeP.2

instance (ctx : Ctx) (a b nx ny : ℤ) : Decidable (ValidRenderArgs ctx a b nx ny) := by
  unfold ValidRenderArgs
  infer_instance

/-- Host ops whose `renderTiles` arguments are valid. -/
def OkOp (ctx : Ctx) : HostOp → Prop
  | .render a b nx ny => ValidRenderArgs ctx a b nx ny
  | .clear => True
  | .panBy _ _ => True

/-- A property source, reduced to its `(interactive, interactiveTiles)`
pair, "defines" the interactive flag when either member is not undefined. -/
def definesInteractive (p : Option Bool × Option Bool) : Bool :=
  p.1.isSome || p.2.isSome

/-- The flag a defining source yields (`!!(v.interactive || v.interactiveTiles)`). -/
def interactiveFlag (p : Option Bool × Option Bool) : Bool :=
  p.1.getD false || p.2.getD false

/-- The spec's wording of the interactive-flag resolution: the first source
in the ordered list that defines the flag determines the result; later
sources are never consulted; with no defining source the flag is false. -/
def resolveInteractiveSpec (sources : List (Option Bool × Option Bool)) : Bool :=
  match sources.find? definesInteractive with
  | some p => interactiveFlag p
  | none => false

/-- Empty free-form property map. -/
def emptyLayerProps : LayerProps :=
  { interactive := none, interactiveTiles := none, tileHitArea := none }

/-- Tile properties with every field undefined and not collidable. -/
def plainTileProps : TileProps :=
  { hitArea := none, isCollidable := false, type := none,
    interactive := none, interactiveTiles := none }

/-- A plain 32x32 tileset with no offset and inert tiles. -/
def tsPlain : Tileset :=
  { tileSize := (32, 32), tileoffset := (0, 0), properties := emptyLayerProps,
    getTileTexture := fun _ => 7, getTileProperties := fun _ => plainTileProps }

/-- Tile properties that are both collidable and interactive. -/
def hotTileProps : TileProps :=
  { hitArea := none, isCollidable := true, type := none,
    interactive := some true, interactiveTiles := none }

/-- A tileset whose tiles are collidable and interactive. -/
def tsHot : Tileset :=
  { tileSize := (32, 32), tileoffset := (0, 0), properties := emptyLayerProps,
    getTileTexture := fun _ => 9, getTileProperties := fun _ => hotTileProps }

/-- A 64x32 tileset for the isometric scenario. -/
def tsIso : Tileset :=
  { tileSize := (64, 32), tileoffset := (0, 0), properties := emptyLayerProps,
    getTileTexture := fun _ => 3, getTileProperties := fun _ => plainTileProps }

/-- A 4x4 orthogonal map whose tile ids never resolve (all empty). -/
def ctxEmpty4 : Ctx :=
  { tileIds := List.replicate 16 0, sizeL := (4, 4), sizeP := (4, 4),
    tileSizeP := (32, 32), scaledTileSize := (32, 32), parentPosition := (0, 0),
    orientationIso := false, getTileset := fun _ => none,
    layerProperties := emptyLayerProps, mapProperties := emptyLayerProps }

/-- A 10x10 orthogonal map with tile width 32 whose tile ids never resolve. -/
def ctxEmpty10 : Ctx :=
  { tileIds := List.replicate 100 0, sizeL := (10, 10), sizeP := (10, 10),
    tileSizeP := (32, 32), scaledTileSize := (32, 32), parentPosition := (0, 0),
    orientationIso := false, getTileset := fun _ => none,
    layerProperties := emptyLayerProps, mapProperties := emptyLayerProps }

/-- A 2x1 map whose two cells both carry resolvable tile id 1. -/
def ctxPair : Ctx :=
  { tileIds := [1, 1], sizeL := (2, 1), sizeP := (2, 1),
    tileSizeP := (32, 32), scaledTileSize := (32, 32), parentPosition := (0, 0),
    orientationIso := false,
    getTileset := fun i => if i = 1 then some tsPlain else none,
    layerProperties := emptyLayerProps, mapProperties := emptyLayerProps }

/-- A 2x1 map whose first cell resolves to a collidable interactive tileset
and whose second cell (id 0) has no tileset. -/
def ctxRelease : Ctx :=
  { tileIds := [1, 0], sizeL := (2, 1), sizeP := (2, 1),
    tileSizeP := (32, 32), scaledTileSize := (32, 32), parentPosition := (0, 0),
    orientationIso := false,
    getTileset := fun i => if i = 1 then some tsHot else none,
    layerProperties := emptyLayerProps, mapProperties := emptyLayerProps }

/-- A 2x1 isometric map with layer tile size (64, 32) and the 64x32 tileset. -/
def ctxIso : Ctx :=
  { tileIds := [1, 1], sizeL := (2, 1), sizeP := (2, 1),
    tileSizeP := (64, 32), scaledTileSize := (64, 32), parentPosition := (0, 0),
    orientationIso := true,
    getTileset := fun i => if i = 1 then some tsIso else none,
    layerProperties := emptyLayerProps, mapProperties := emptyLayerProps }

/-- The round-trip scenario start: `renderTiles(0,0,10,10)` with tile width
32 and zero accumulator. -/
def c3Start : TState := renderTiles ctxEmpty10 initState 0 0 10 10

/-- The state after `k` `pan(32, 0)` calls from `c3Start`. -/
def c3After (k : ℕ) : TState :=
  iterateN (fun t => pan ctxEmpty10 t 32 0) k c3Start

/-- A node bound at (0,0) from the collidable interactive tileset. -/
def c5Bound : TState := moveTileSprite ctxRelease initState 0 0 0 0

/-- That node released through the `moveTileSprite` no-tileset path. -/
def c5Released : TState := moveTileSprite ctxRelease c5Bound 0 0 1 0


/-! ### Basic lemmas about the grid and node-store primitives -/

theorem lookupTile_cons_self (cp : ℤ × ℤ) (np : ℕ) (ts : List ((ℤ × ℤ) × ℕ)) :
    lookupTile ((cp, np) :: ts) cp = some np := by
  simp [lookupTile]

theorem lookupTile_cons_ne {cp c : ℤ × ℤ} (np : ℕ) (ts : List ((ℤ × ℤ) × ℕ))
    (h : cp ≠ c) : lookupTile ((cp, np) :: ts) c = lookupTile ts c := by
  simp [lookupTile, h]

theorem eraseTile_cons_self (cp : ℤ × ℤ) (np : ℕ) (ts : List ((ℤ × ℤ) × ℕ)) :
    eraseTile ((cp, np) :: ts) cp = eraseTile ts cp := by
  simp [eraseTile]

theorem eraseTile_cons_ne {cp c : ℤ × ℤ} (np : ℕ) (ts : List ((ℤ × ℤ) × ℕ))
    (h : cp ≠ c) : eraseTile ((cp, np) :: ts) c = (cp, np) :: eraseTile ts c := by
  simp [eraseTile, h]

theorem lookupTile_eq_none_iff (ts : List ((ℤ × ℤ) × ℕ)) (c : ℤ × ℤ) :
    lookupTile ts c = none ↔ c ∉ ts.map (·.1) := by
  induction ts with
  | nil => simp [lookupTile]
  | cons p ts ih =>
    obtain ⟨cp, np⟩ := p
    by_cases h : cp = c
    · subst h
      simp [lookupTile_cons_self, ih]
    · rw [lookupTile_cons_ne np ts h]
      simp [ih, Ne.symm h]

theorem mem_keys_of_lookupTile_some {ts : List ((ℤ × ℤ) × ℕ)} {c : ℤ × ℤ}
    {n : ℕ} (h : lookupTile ts c = some n) : c ∈ ts.map (·.1) := by
  by_contra hmem
  rw [← lookupTile_eq_none_iff] at hmem
  rw [hmem] at h
  exact Option.noConfusion h

theorem lookupTile_some_of_mem_keys {ts : List ((ℤ × ℤ) × ℕ)} {c : ℤ × ℤ}
    (h : c ∈ ts.map (·.1)) : ∃ n, lookupTile ts c = some n := by
  cases hl : lookupTile ts c with
  | none => exact absurd ((lookupTile_eq_none_iff ts c).1 hl) (by simp [h])
  | some n => exact ⟨n, rfl⟩

theorem mem_keys_eraseTile {ts : List ((ℤ × ℤ) × ℕ)} {c c' : ℤ × ℤ} :
    c' ∈ (eraseTile ts c).map (·.1) ↔ c' ∈ ts.map (·.1) ∧ c' ≠ c := by
  induction ts with
  | nil => simp [eraseTile]
  | cons p ts ih =>
    obtain ⟨cp, np⟩ := p
    by_cases h : cp = c
    · subst h
      rw [eraseTile_cons_self]
      simp only [ih, List.map_cons, List.mem_cons]
      constructor
      · rintro ⟨h1, h2⟩
        exact ⟨Or.inr h1, h2⟩
      · rintro ⟨h1 | h1, h2⟩
        · exact absurd h1 h2
        · exact ⟨h1, h2⟩
    · rw [eraseTile_cons_ne np ts h]
      simp only [List.map_cons, List.mem_cons, ih]
      constructor
      · rintro (h1 | ⟨h1, h2⟩)
        · subst h1
          exact ⟨Or.inl rfl, fun he => h (he ▸ rfl)⟩
        · exact ⟨Or.inr h1, h2⟩
      · rintro ⟨h1 | h1, h2⟩
        · exact Or.inl h1
        · exact Or.inr ⟨h1, h2⟩

theorem eraseTile_of_not_mem {ts : List ((ℤ × ℤ) × ℕ)} {c : ℤ × ℤ}
    (h : c ∉ ts.map (·.1)) : eraseTile ts c = ts := by
  induction ts with
  | nil => rfl
  | cons p ts ih =>
    obtain ⟨cp, np⟩ := p
    simp only [List.map_cons, List.mem_cons] at h
    push_neg at h
    rw [eraseTile_cons_ne np ts (fun he => h.1 he.symm), ih h.2]

theorem nodup_keys_eraseTile {ts : List ((ℤ × ℤ) × ℕ)} {c : ℤ × ℤ}
    (h : (ts.map (·.1)).Nodup) : ((eraseTile ts c).map (·.1)).Nodup := by
  induction ts with
  | nil => simp [eraseTile]
  | cons p ts ih =>
    obtain ⟨cp, np⟩ := p
    simp only [List.map_cons, List.nodup_cons] at h
    by_cases hc : cp = c
    · subst hc
      rw [eraseTile_cons_self]
      exact ih h.2
    · rw [eraseTile_cons_ne np ts hc]
      simp only [List.map_cons, List.nodup_cons]
      exact ⟨fun hmem => h.1 (mem_keys_eraseTile.1 hmem).1, ih h.2⟩

theorem lookupTile_eraseTile_self (ts : List ((ℤ × ℤ) × ℕ)) (c : ℤ × ℤ) :
    lookupTile (eraseTile ts c) c = none := by
  rw [lookupTile_eq_none_iff]
  intro h
  exact (mem_keys_eraseTile.1 h).2 rfl

theorem lookupTile_eraseTile_ne (ts : List ((ℤ × ℤ) × ℕ)) {c c' : ℤ × ℤ}
    (h : c' ≠ c) : lookupTile (eraseTile ts c) c' = lookupTile ts c' := by
  induction ts with
  | nil => rfl
  | cons p ts ih =>
    obtain ⟨cp, np⟩ := p
    by_cases hc : cp = c
    · subst hc
      rw [eraseTile_cons_self, ih, lookupTile_cons_ne np ts (fun he => h he.symm)]
    · by_cases hc' : cp = c'
      · subst hc'
        rw [eraseTile_cons_ne np ts hc, lookupTile_cons_self, lookupTile_cons_self]
      · rw [eraseTile_cons_ne np ts hc, lookupTile_cons_ne np _ hc',
          lookupTile_cons_ne np ts hc', ih]

theorem values_eraseTile_perm {ts : List ((ℤ × ℤ) × ℕ)} {c : ℤ × ℤ} {t : ℕ}
    (hnd : (ts.map (·.1)).Nodup) (h : lookupTile ts c = some t) :
    List.Perm (t :: (eraseTile ts c).map (·.2)) (ts.map (·.2)) := by
  induction ts with
  | nil => simp [lookupTile] at h
  | cons p ts ih =>
    obtain ⟨cp, np⟩ := p
    simp only [List.map_cons, List.nodup_cons] at hnd
    by_cases hc : cp = c
    · subst hc
      rw [lookupTile_cons_self, Option.some.injEq] at h
      subst h
      rw [eraseTile_cons_self, eraseTile_of_not_mem hnd.1]
      simp
    · rw [lookupTile_cons_ne np ts hc] at h
      have hp := ih hnd.2 h
      rw [eraseTile_cons_ne np ts hc]
      simp only [List.map_cons]
      exact List.Perm.trans (List.Perm.swap np t _) (List.Perm.cons np hp)

theorem updNode_length (ns : List NodeR) (i : ℕ) (f : NodeR → NodeR) :
    (updNode ns i f).length = ns.length := by
  induction ns generalizing i with
  | nil => rfl
  | cons n ns ih =>
    cases i with
    | zero => rfl
    | succ j => simp [updNode, ih]

theorem updNode_getD_same {ns : List NodeR} {i : ℕ} (h : i < ns.length)
    (f : NodeR → NodeR) (d : NodeR) :
    (updNode ns i f).getD i d = f (ns.getD i d) := by
  induction ns generalizing i with
  | nil => simp at h
  | cons n ns ih =>
    cases i with
    | zero => simp [updNode]
    | succ j =>
      simp only [List.length_cons, Nat.succ_lt_succ_iff] at h
      simp only [updNode, List.getD_cons_succ]
      exact ih h

theorem updNode_getD_ne {ns : List NodeR} {i j : ℕ} (h : j ≠ i)
    (f : NodeR → NodeR) (d : NodeR) :
    (updNode ns i f).getD j d = ns.getD j d := by
  induction ns generalizing i j with
  | nil => rfl
  | cons n ns ih =>
    cases i with
    | zero =>
      cases j with
      | zero => exact absurd rfl h
      | succ k => simp [updNode]
    | succ i' =>
      cases j with
      | zero => simp [updNode]
      | succ k =>
        simp only [updNode, List.getD_cons_succ]
        exact ih (fun he => h (congrArg Nat.succ he))

theorem pool_decomp {l : List ℕ} {t : ℕ} (h : l.getLast? = some t) :
    l = l.dropLast ++ [t] := by
  cases l with
  | nil => simp at h
  | cons a l' =>
    have hne : a :: l' ≠ [] := by simp
    rw [List.getLast?_eq_getLast _ hne, Option.some.injEq] at h
    rw [← h]
    exact (List.dropLast_append_getLast hne).symm

/-! ### Case equations for `moveTileSprite` -/

theorem moveTileSprite_none_some {ctx : Ctx} {s : TState} {fx fy tx ty : ℤ}
    {t : ℕ} (hres : resolveTileset ctx tx ty = none)
    (hfe : lookupTile s.tiles (fx, fy) = some t) :
    moveTileSprite ctx s fx fy tx ty =
      { s with tiles := eraseTile s.tiles (fx, fy),
               nodes := updNode s.nodes t (fun nd => { nd with visible := false }),
               tilePool := s.tilePool ++ [t] } := by
  simp only [moveTileSprite, hres, hfe]

theorem moveTileSprite_none_none {ctx : Ctx} {s : TState} {fx fy tx ty : ℤ}
    (hres : resolveTileset ctx tx ty = none)
    (hfe : lookupTile s.tiles (fx, fy) = none) :
    moveTileSprite ctx s fx fy tx ty = s := by
  simp only [moveTileSprite, hres, hfe]

theorem moveTileSprite_some_from {ctx : Ctx} {s : TState} {fx fy tx ty : ℤ}
    {tid : ℕ} {set : Tileset} {t : ℕ}
    (hres : resolveTileset ctx tx ty = some (tid, set))
    (hfe : lookupTile s.tiles (fx, fy) = some t) :
    moveTileSprite ctx s fx fy tx ty =
      { s with tiles := insertTile (eraseTile s.tiles (fx, fy)) (tx, ty) t,
               tilePool := s.tilePool,
               nodes := updNode s.nodes t (rebindNode ctx set tid tx ty) } := by
  simp only [moveTileSprite, hres, hfe]

theorem moveTileSprite_some_pop {ctx : Ctx} {s : TState} {fx fy tx ty : ℤ}
    {tid : ℕ} {set : Tileset} {t : ℕ}
    (hres : resolveTileset ctx tx ty = some (tid, set))
    (hfe : lookupTile s.tiles (fx, fy) = none)
    (hpop : s.tilePool.getLast? = some t) :
    moveTileSprite ctx s fx fy tx ty =
      { s with tiles := insertTile s.tiles (tx, ty) t,
               tilePool := s.tilePool.dropLast,
               nodes := updNode s.nodes t (rebindNode ctx set tid tx ty) } := by
  simp only [moveTileSprite, hres, hfe, hpop]

theorem moveTileSprite_some_new {ctx : Ctx} {s : TState} {fx fy tx ty : ℤ}
    {tid : ℕ} {set : Tileset}
    (hres : resolveTileset ctx tx ty = some (tid, set))
    (hfe : lookupTile s.tiles (fx, fy) = none)
    (hpop : s.tilePool.getLast? = none) :
    moveTileSprite ctx s fx fy tx ty =
      { s with tiles := insertTile s.tiles (tx, ty) s.nodes.length,
               tilePool := s.tilePool.dropLast,
               nodes := updNode (s.nodes ++ [newTileNode (set.getTileTexture tid)])
                 s.nodes.length (rebindNode ctx set tid tx ty) } := by
  simp only [moveTileSprite, hres, hfe, hpop]

theorem moveTileSprite_frame (ctx : Ctx) (s : TState) (fx fy tx ty : ℤ) :
    (moveTileSprite ctx s fx fy tx ty).rendered = s.rendered ∧
    (moveTileSprite ctx s fx fy tx ty).buffered = s.buffered ∧
    (moveTileSprite ctx s fx fy tx ty).panX = s.panX ∧
    (moveTileSprite ctx s fx fy tx ty).panY = s.panY := by
  cases hres : resolveTileset ctx tx ty with
  | none =>
    cases hfe : lookupTile s.tiles (fx, fy) with
    | none => rw [moveTileSprite_none_none hres hfe]; exact ⟨rfl, rfl, rfl, rfl⟩
    | some t => rw [moveTileSprite_none_some hres hfe]; exact ⟨rfl, rfl, rfl, rfl⟩
  | some pr =>
    obtain ⟨tid, set⟩ := pr
    cases hfe : lookupTile s.tiles (fx, fy) with
    | some t => rw [moveTileSprite_some_from hres hfe]; exact ⟨rfl, rfl, rfl, rfl⟩
    | none =>
      cases hpop : s.tilePool.getLast? with
      | none => rw [moveTileSprite_some_new hres hfe hpop]; exact ⟨rfl, rfl, rfl, rfl⟩
      | some t => rw [moveTileSprite_some_pop hres hfe hpop]; exact ⟨rfl, rfl, rfl, rfl⟩

/-- Invariant effect of one `moveTileSprite` call: when the target coordinate
is free (or equals the source), key distinctness is preserved, the multiset
of node indices in grid-plus-pool stays in bijection with the nodes ever
created, and every key of the result either survived (and is not the source)
or is the target. -/
theorem moveTileSprite_step {ctx : Ctx} {s : TState} {fx fy tx ty : ℤ}
    (hnd : (s.tiles.map (·.1)).Nodup)
    (hperm : List.Perm (s.tiles.map (·.2) ++ s.tilePool) (List.range s.nodes.length))
    (hfresh : lookupTile s.tiles (tx, ty) = none ∨ ((tx, ty) : ℤ × ℤ) = (fx, fy)) :
    (((moveTileSprite ctx s fx fy tx ty).tiles.map (·.1)).Nodup) ∧
    List.Perm ((moveTileSprite ctx s fx fy tx ty).tiles.map (·.2) ++
        (moveTileSprite ctx s fx fy tx ty).tilePool)
      (List.range (moveTileSprite ctx s fx fy tx ty).nodes.length) ∧
    (∀ c, c ∈ (moveTileSprite ctx s fx fy tx ty).tiles.map (·.1) →
      (c ∈ s.tiles.map (·.1) ∧ c ≠ (fx, fy)) ∨ c = (tx, ty)) := by
  cases hres : resolveTileset ctx tx ty with
  | none =>
    cases hfe : lookupTile s.tiles (fx, fy) with
    | none =>
      rw [moveTileSprite_none_none hres hfe]
      refine ⟨hnd, hperm, fun c hc => Or.inl ⟨hc, fun hceq => ?_⟩⟩
      subst hceq
      rw [lookupTile_eq_none_iff] at hfe
      exact hfe hc
    | some t =>
      rw [moveTileSprite_none_some hres hfe]
      refine ⟨nodup_keys_eraseTile hnd, ?_, fun c hc => Or.inl (mem_keys_eraseTile.1 hc)⟩
      have hv := values_eraseTile_perm hnd hfe
      show List.Perm ((eraseTile s.tiles (fx, fy)).map (·.2) ++ (s.tilePool ++ [t]))
        (List.range (updNode s.nodes t _).length)
      rw [updNode_length, ← List.append_assoc]
      have h2 := List.perm_append_singleton t
        ((eraseTile s.tiles (fx, fy)).map (·.2) ++ s.tilePool)
      have h4 : List.Perm ((t :: (eraseTile s.tiles (fx, fy)).map (·.2)) ++ s.tilePool)
          (s.tiles.map (·.2) ++ s.tilePool) := hv.append_right _
      exact (h2.trans h4).trans hperm
  | some pr =>
    obtain ⟨tid, set⟩ := pr
    cases hfe : lookupTile s.tiles (fx, fy) with
    | some t =>
      rw [moveTileSprite_some_from hres hfe]
      have hto : ((tx, ty) : ℤ × ℤ) ∉ (eraseTile s.tiles (fx, fy)).map (·.1) := by
        rcases hfresh with hfr | hfr
        · intro hmem
          rw [lookupTile_eq_none_iff] at hfr
          exact hfr (mem_keys_eraseTile.1 hmem).1
        · rw [hfr]
          intro hmem
          exact (mem_keys_eraseTile.1 hmem).2 rfl
      have htiles : insertTile (eraseTile s.tiles (fx, fy)) (tx, ty) t =
          ((tx, ty), t) :: eraseTile s.tiles (fx, fy) := by
        unfold insertTile
        rw [eraseTile_of_not_mem hto]
      rw [htiles]
      refine ⟨?_, ?_, fun c hc => ?_⟩
      · simp only [List.map_cons, List.nodup_cons]
        exact ⟨hto, nodup_keys_eraseTile hnd⟩
      · have hv := values_eraseTile_perm hnd hfe
        show List.Perm ((((tx, ty), t) :: eraseTile s.tiles (fx, fy)).map (·.2) ++
          s.tilePool) (List.range (updNode s.nodes t _).length)
        rw [updNode_length]
        simp only [List.map_cons]
        exact (hv.append_right _).trans hperm
      · simp only [List.map_cons, List.mem_cons] at hc
        rcases hc with hc | hc
        · exact Or.inr hc
        · exact Or.inl (mem_keys_eraseTile.1 hc)
    | none =>
      have hto : lookupTile s.tiles (tx, ty) = none := by
        rcases hfresh with hfr | hfr
        · exact hfr
        · rw [hfr]
          exact hfe
      have htonm : ((tx, ty) : ℤ × ℤ) ∉ s.tiles.map (·.1) :=
        (lookupTile_eq_none_iff _ _).1 hto
      have herase : eraseTile s.tiles (tx, ty) = s.tiles := eraseTile_of_not_mem htonm
      have hfrnm : ((fx, fy) : ℤ × ℤ) ∉ s.tiles.map (·.1) :=
        (lookupTile_eq_none_iff _ _).1 hfe
      cases hpop : s.tilePool.getLast? with
      | some t =>
        rw [moveTileSprite_some_pop hres hfe hpop]
        have hdec := pool_decomp hpop
        have heq : s.tiles.map (·.2) ++ s.tilePool =
            (s.tiles.map (·.2) ++ s.tilePool.dropLast) ++ [t] := by
          rw [List.append_assoc, ← hdec]
        refine ⟨?_, ?_, fun c hc => ?_⟩
        · unfold insertTile
          rw [herase]
          simp only [List.map_cons, List.nodup_cons]
          exact ⟨htonm, hnd⟩
        · show List.Perm ((insertTile s.tiles (tx, ty) t).map (·.2) ++
            s.tilePool.dropLast) (List.range (updNode s.nodes t _).length)
          unfold insertTile
          rw [herase, updNode_length]
          simp only [List.map_cons]
          have h5 := List.perm_append_singleton t
            (s.tiles.map (·.2) ++ s.tilePool.dropLast)
          exact h5.symm.trans (heq ▸ hperm)
        · unfold insertTile at hc
          rw [herase] at hc
          simp only [List.map_cons, List.mem_cons] at hc
          rcases hc with hc | hc
          · exact Or.inr hc
          · exact Or.inl ⟨hc, fun hceq => hfrnm (hceq ▸ hc)⟩
      | none =>
        rw [moveTileSprite_some_new hres hfe hpop]
        have hpool : s.tilePool = [] := by
          cases hp : s.tilePool with
          | nil => rfl
          | cons a l => rw [hp] at hpop; simp [List.getLast?_concat] at hpop
        refine ⟨?_, ?_, fun c hc => ?_⟩
        · unfold insertTile
          rw [herase]
          simp only [List.map_cons, List.nodup_cons]
          exact ⟨htonm, hnd⟩
        · show List.Perm ((insertTile s.tiles (tx, ty) s.nodes.length).map (·.2) ++
            s.tilePool.dropLast)
            (List.range (updNode (s.nodes ++ [newTileNode _]) s.nodes.length _).length)
          unfold insertTile
          rw [herase, updNode_length, List.length_append, List.length_singleton,
            hpool]
          rw [hpool] at hperm
          simp only [List.append_nil] at hperm
          simp only [List.map_cons, List.dropLast_nil, List.append_nil]
          have h6 : List.Perm (s.nodes.length :: s.tiles.map (·.2))
              (s.nodes.length :: List.range s.nodes.length) := hperm.cons _
          have h7 := (List.perm_append_singleton s.nodes.length
            (List.range s.nodes.length)).symm
          rw [← List.range_succ] at h7
          exact h6.trans h7
        · unfold insertTile at hc
          rw [herase] at hc
          simp only [List.map_cons, List.mem_cons] at hc
          rcases hc with hc | hc
          · exact Or.inr hc
          · exact Or.inl ⟨hc, fun hceq => hfrnm (hceq ▸ hc)⟩

theorem moveSeq_nil (ctx : Ctx) (s : TState) : moveSeq ctx [] s = s := rfl

theorem moveSeq_cons (ctx : Ctx) (p : (ℤ × ℤ) × (ℤ × ℤ))
    (ps : List ((ℤ × ℤ) × (ℤ × ℤ))) (s : TState) :
    moveSeq ctx (p :: ps) s =
      moveSeq ctx ps (moveTileSprite ctx s p.1.1 p.1.2 p.2.1 p.2.2) := rfl

/-- Invariant effect of a sequence of `moveTileSprite` calls whose target
coordinates are pairwise distinct and individually fresh (or self-moves):
key distinctness and the grid-pool/created bijection are preserved, every
final key either survived every source coordinate or is one of the targets,
and the rendered rectangle, buffered flags and accumulator are untouched. -/
theorem moveSeq_spec (ctx : Ctx) (ps : List ((ℤ × ℤ) × (ℤ × ℤ))) :
    ∀ s : TState,
    (s.tiles.map (·.1)).Nodup →
    List.Perm (s.tiles.map (·.2) ++ s.tilePool) (List.range s.nodes.length) →
    (∀ p ∈ ps, lookupTile s.tiles p.2 = none ∨ p.2 = p.1) →
    ((ps.map (·.2)).Nodup) →
    ((moveSeq ctx ps s).tiles.map (·.1)).Nodup ∧
    List.Perm ((moveSeq ctx ps s).tiles.map (·.2) ++ (moveSeq ctx ps s).tilePool)
      (List.range (moveSeq ctx ps s).nodes.length) ∧
    (∀ c, c ∈ (moveSeq ctx ps s).tiles.map (·.1) →
      (c ∈ s.tiles.map (·.1) ∧ ∀ p ∈ ps, p.1 ≠ c) ∨ c ∈ ps.map (·.2)) ∧
    (moveSeq ctx ps s).rendered = s.rendered ∧
    (moveSeq ctx ps s).buffered = s.buffered ∧
    (moveSeq ctx ps s).panX = s.panX ∧
    (moveSeq ctx ps s).panY = s.panY := by
  induction ps with
  | nil =>
    intro s hnd hperm hfresh hdist
    rw [moveSeq_nil]
    exact ⟨hnd, hperm, fun c hc => Or.inl ⟨hc, by simp⟩, rfl, rfl, rfl, rfl⟩
  | cons p ps ih =>
    intro s hnd hperm hfresh hdist
    obtain ⟨⟨fx, fy⟩, tx, ty⟩ := p
    rw [moveSeq_cons]
    have hfhead := hfresh ((fx, fy), tx, ty) (List.mem_cons_self _ _)
    simp only at hfhead
    have hstep := @moveTileSprite_step ctx s fx fy tx ty hnd hperm hfhead
    obtain ⟨hnd₁, hperm₁, hkeys₁⟩ := hstep
    have hframe := moveTileSprite_frame ctx s fx fy tx ty
    simp only [List.map_cons, List.nodup_cons] at hdist
    have hfresh₁ : ∀ q ∈ ps,
        lookupTile (moveTileSprite ctx s fx fy tx ty).tiles q.2 = none ∨
        q.2 = q.1 := by
      intro q hq
      rcases hfresh q (List.mem_cons_of_mem _ hq) with h | h
      · left
        rw [lookupTile_eq_none_iff]
        intro hmem
        rcases hkeys₁ q.2 hmem with ⟨hks, _⟩ | hkt
        · rw [lookupTile_eq_none_iff] at h
          exact h hks
        · exact hdist.1 (hkt ▸ List.mem_map_of_mem (·.2) hq)
      · exact Or.inr h
    obtain ⟨ind, iperm, ikeys, irend, ibuf, ipx, ipy⟩ :=
      ih (moveTileSprite ctx s fx fy tx ty) hnd₁ hperm₁ hfresh₁ hdist.2
    refine ⟨ind, iperm, fun c hc => ?_, irend.trans hframe.1,
      ibuf.trans hframe.2.1, ipx.trans hframe.2.2.1, ipy.trans hframe.2.2.2⟩
    rcases ikeys c hc with ⟨hc₁, hq⟩ | hc₁
    · rcases hkeys₁ c hc₁ with ⟨hcs, hne⟩ | hct
      · refine Or.inl ⟨hcs, fun q hqmem => ?_⟩
        rcases List.mem_cons.1 hqmem with rfl | hqt
        · simpa using fun he => hne he.symm
        · exact hq q hqt
      · exact Or.inr (by simp [hct])
    · exact Or.inr (List.mem_cons_of_mem _ hc₁)

theorem renderLeft_false (ctx : Ctx) (s : TState) :
    renderLeft ctx false s =
      { moveSeq ctx (leftPairs false s.rendered) s with
        rendered := updateRenderSq
          { (moveSeq ctx (leftPairs false s.rendered) s).rendered with
            x := (moveSeq ctx (leftPairs false s.rendered) s).rendered.x - 1 } } := by
  unfold renderLeft moveSeq leftPairs
  rw [List.foldl_map]
  rfl

theorem renderLeft_true (ctx : Ctx) (s : TState) :
    renderLeft ctx true s =
      { moveSeq ctx (leftPairs true s.rendered) s with
        rendered := updateRenderSq
          { (moveSeq ctx (leftPairs true s.rendered) s).rendered with
            x := (moveSeq ctx (leftPairs true s.rendered) s).rendered.x - 1,
            width := (moveSeq ctx (leftPairs true s.rendered) s).rendered.width + 1 } } := by
  unfold renderLeft moveSeq leftPairs
  rw [List.foldl_map]
  rfl

theorem renderRight_false (ctx : Ctx) (s : TState) :
    renderRight ctx false s =
      { moveSeq ctx (rightPairs false s.rendered) s with
        rendered := updateRenderSq
          { (moveSeq ctx (rightPairs false s.rendered) s).rendered with
            x := (moveSeq ctx (rightPairs false s.rendered) s).rendered.x + 1 } } := by
  unfold renderRight moveSeq rightPairs
  rw [List.foldl_map]
  rfl

theorem renderRight_true (ctx : Ctx) (s : TState) :
    renderRight ctx true s =
      { moveSeq ctx (rightPairs true s.rendered) s with
        rendered := updateRenderSq
          { (moveSeq ctx (rightPairs true s.rendered) s).rendered with
            width := (moveSeq ctx (rightPairs true s.rendered) s).rendered.width + 1 } } := by
  unfold renderRight moveSeq rightPairs
  rw [List.foldl_map]
  rfl

theorem renderUp_false (ctx : Ctx) (s : TState) :
    renderUp ctx false s =
      { moveSeq ctx (upPairs false s.rendered) s with
        rendered := updateRenderSq
          { (moveSeq ctx (upPairs false s.rendered) s).rendered with
            y := (moveSeq ctx (upPairs false s.rendered) s).rendered.y - 1 } } := by
  unfold renderUp moveSeq upPairs
  rw [List.foldl_map]
  rfl

theorem renderUp_true (ctx : Ctx) (s : TState) :
    renderUp ctx true s =
      { moveSeq ctx (upPairs true s.rendered) s with
        rendered := updateRenderSq
          { (moveSeq ctx (upPairs true s.rendered) s).rendered with
            y := (moveSeq ctx (upPairs true s.rendered) s).rendered.y - 1,
            height := (moveSeq ctx (upPairs true s.rendered) s).rendered.height + 1 } } := by
  unfold renderUp moveSeq upPairs
  rw [List.foldl_map]
  rfl

theorem renderDown_false (ctx : Ctx) (s : TState) :
    renderDown ctx false s =
      { moveSeq ctx (downPairs false s.rendered) s with
        rendered := updateRenderSq
          { (moveSeq ctx (downPairs false s.rendered) s).rendered with
            y := (moveSeq ctx (downPairs false s.rendered) s).rendered.y + 1 } } := by
  unfold renderDown moveSeq downPairs
  rw [List.foldl_map]
  rfl

theorem renderDown_true (ctx : Ctx) (s : TState) :
    renderDown ctx true s =
      { moveSeq ctx (downPairs true s.rendered) s with
        rendered := updateRenderSq
          { (moveSeq ctx (downPairs true s.rendered) s).rendered with
            height := (moveSeq ctx (downPairs true s.rendered) s).rendered.height + 1 } } := by
  unfold renderDown moveSeq downPairs
  rw [List.foldl_map]
  rfl

theorem nodup_row_targets (a b : ℤ) (n : ℕ) :
    (((List.range n).map (fun (i : ℕ) => (a, b + (i : ℤ)))).Nodup) := by
  have hinj : Function.Injective (fun (i : ℕ) => ((a, b + (i : ℤ)) : ℤ × ℤ)) := by
    intro i j hij
    simp only [Prod.mk.injEq, true_and] at hij
    omega
  exact List.Nodup.map hinj (List.nodup_range n)

theorem nodup_col_targets (a b : ℤ) (n : ℕ) :
    (((List.range n).map (fun (i : ℕ) => (b + (i : ℤ), a))).Nodup) := by
  have hinj : Function.Injective (fun i : ℕ => ((b + (i : ℤ), a) : ℤ × ℤ)) := by
    intro i j hij
    simp only [Prod.mk.injEq, and_true] at hij
    omega
  exact List.Nodup.map hinj (List.nodup_range n)

theorem mem_leftPairs {f : Bool} {r : Rect} {p : (ℤ × ℤ) × (ℤ × ℤ)} :
    p ∈ leftPairs f r ↔ ∃ i : ℕ, i < r.height.toNat ∧
      p = ((if f then -1 else r.right, if f then -1 else r.top + (i : ℤ)),
           (r.left - 1, r.top + (i : ℤ))) := by
  simp only [leftPairs, List.mem_map, List.mem_range]
  constructor
  · rintro ⟨i, hi, rfl⟩
    exact ⟨i, hi, rfl⟩
  · rintro ⟨i, hi, rfl⟩
    exact ⟨i, hi, rfl⟩

theorem mem_rightPairs {f : Bool} {r : Rect} {p : (ℤ × ℤ) × (ℤ × ℤ)} :
    p ∈ rightPairs f r ↔ ∃ i : ℕ, i < r.height.toNat ∧
      p = ((if f then -1 else r.left, if f then -1 else r.top + (i : ℤ)),
           (r.right + 1, r.top + (i : ℤ))) := by
  simp only [rightPairs, List.mem_map, List.mem_range]
  constructor
  · rintro ⟨i, hi, rfl⟩
    exact ⟨i, hi, rfl⟩
  · rintro ⟨i, hi, rfl⟩
    exact ⟨i, hi, rfl⟩

theorem mem_upPairs {f : Bool} {r : Rect} {p : (ℤ × ℤ) × (ℤ × ℤ)} :
    p ∈ upPairs f r ↔ ∃ i : ℕ, i < r.width.toNat ∧
      p = ((if f then -1 else r.left + (i : ℤ), if f then -1 else r.bottom),
           (r.left + (i : ℤ), r.top - 1)) := by
  simp only [upPairs, List.mem_map, List.mem_range]
  constructor
  · rintro ⟨i, hi, rfl⟩
    exact ⟨i, hi, rfl⟩
  · rintro ⟨i, hi, rfl⟩
    exact ⟨i, hi, rfl⟩

theorem mem_downPairs {f : Bool} {r : Rect} {p : (ℤ × ℤ) × (ℤ × ℤ)} :
    p ∈ downPairs f r ↔ ∃ i : ℕ, i < r.width.toNat ∧
      p = ((if f then -1 else r.left + (i : ℤ), if f then -1 else r.top),
           (r.left + (i : ℤ), r.bottom + 1)) := by
  simp only [downPairs, List.mem_map, List.mem_range]
  constructor
  · rintro ⟨i, hi, rfl⟩
    exact ⟨i, hi, rfl⟩
  · rintro ⟨i, hi, rfl⟩
    exact ⟨i, hi, rfl⟩

theorem leftPairs_targets (f : Bool) (r : Rect) :
    (leftPairs f r).map (·.2) =
      (List.range r.height.toNat).map (fun (i : ℕ) => (r.left - 1, r.top + (i : ℤ))) := by
  simp only [leftPairs, List.map_map]
  rfl

theorem rightPairs_targets (f : Bool) (r : Rect) :
    (rightPairs f r).map (·.2) =
      (List.range r.height.toNat).map (fun (i : ℕ) => (r.right + 1, r.top + (i : ℤ))) := by
  simp only [rightPairs, List.map_map]
  rfl

theorem upPairs_targets (f : Bool) (r : Rect) :
    (upPairs f r).map (·.2) =
      (List.range r.width.toNat).map (fun (i : ℕ) => (r.left + (i : ℤ), r.top - 1)) := by
  simp only [upPairs, List.map_map]
  rfl

theorem downPairs_targets (f : Bool) (r : Rect) :
    (downPairs f r).map (·.2) =
      (List.range r.width.toNat).map (fun (i : ℕ) => (r.left + (i : ℤ), r.bottom + 1)) := by
  simp only [downPairs, List.map_map]
  rfl

theorem inv_renderLeft (ctx : Ctx) (f : Bool) {s : TState} (h : LayerInv s) :
    LayerInv (renderLeft ctx f s) := by
  obtain ⟨hin, hnd, hperm, ⟨hsl, hsr, hst, hsb⟩, hw, hh⟩ := h
  have hfresh : ∀ p ∈ leftPairs f s.rendered,
      lookupTile s.tiles p.2 = none ∨ p.2 = p.1 := by
    intro p hp
    obtain ⟨i, hi, rfl⟩ := mem_leftPairs.1 hp
    left
    rw [lookupTile_eq_none_iff]
    intro hmem
    have hr := hin _ hmem
    unfold inRect at hr
    simp only at hr
    omega
  have hdist : ((leftPairs f s.rendered).map (·.2)).Nodup := by
    rw [leftPairs_targets]
    exact nodup_row_targets _ _ _
  obtain ⟨nd', perm', keys', rend', buf', px', py'⟩ :=
    moveSeq_spec ctx (leftPairs f s.rendered) s hnd hperm hfresh hdist
  cases f
  · rw [renderLeft_false, rend']
    refine ⟨?_, nd', perm', ⟨rfl, rfl, rfl, rfl⟩, by simp [updateRenderSq]; omega,
      by simp [updateRenderSq]; omega⟩
    intro c hc
    rcases keys' c hc with ⟨hcs, hq⟩ | hct
    · have hr := hin c hcs
      unfold inRect at hr ⊢
      simp only [updateRenderSq] at *
      by_cases hcr : c.1 = s.rendered.x + s.rendered.width - 1
      · exfalso
        have hi0 : (c.2 - s.rendered.top).toNat < s.rendered.height.toNat := by omega
        have hpmem : ((s.rendered.right, s.rendered.top + ((c.2 - s.rendered.top).toNat : ℤ)),
            (s.rendered.left - 1, s.rendered.top + ((c.2 - s.rendered.top).toNat : ℤ))) ∈
            leftPairs false s.rendered :=
          mem_leftPairs.2 ⟨(c.2 - s.rendered.top).toNat, hi0, by simp⟩
        refine hq _ hpmem ?_
        refine Prod.ext ?_ ?_
        · simp only
          omega
        · simp only
          omega
      · omega
    · rw [leftPairs_targets] at hct
      obtain ⟨i, hi, rfl⟩ := List.mem_map.1 hct
      rw [List.mem_range] at hi
      unfold inRect
      simp only [updateRenderSq]
      omega
  · rw [renderLeft_true, rend']
    refine ⟨?_, nd', perm', ⟨rfl, rfl, rfl, rfl⟩, by simp [updateRenderSq]; omega,
      by simp [updateRenderSq]; omega⟩
    intro c hc
    rcases keys' c hc with ⟨hcs, _⟩ | hct
    · have hr := hin c hcs
      unfold inRect at hr ⊢
      simp only [updateRenderSq] at *
      omega
    · rw [leftPairs_targets] at hct
      obtain ⟨i, hi, rfl⟩ := List.mem_map.1 hct
      rw [List.mem_range] at hi
      unfold inRect
      simp only [updateRenderSq]
      omega

theorem inv_renderRight (ctx : Ctx) (f : Bool) {s : TState} (h : LayerInv s) :
    LayerInv (renderRight ctx f s) := by
  obtain ⟨hin, hnd, hperm, ⟨hsl, hsr, hst, hsb⟩, hw, hh⟩ := h
  have hfresh : ∀ p ∈ rightPairs f s.rendered,
      lookupTile s.tiles p.2 = none ∨ p.2 = p.1 := by
    intro p hp
    obtain ⟨i, hi, rfl⟩ := mem_rightPairs.1 hp
    left
    rw [lookupTile_eq_none_iff]
    intro hmem
    have hr := hin _ hmem
    unfold inRect at hr
    simp only at hr
    omega
  have hdist : ((rightPairs f s.rendered).map (·.2)).Nodup := by
    rw [rightPairs_targets]
    exact nodup_row_targets _ _ _
  obtain ⟨nd', perm', keys', rend', buf', px', py'⟩ :=
    moveSeq_spec ctx (rightPairs f s.rendered) s hnd hperm hfresh hdist
  cases f
  · rw [renderRight_false, rend']
    refine ⟨?_, nd', perm', ⟨rfl, rfl, rfl, rfl⟩, by simp [updateRenderSq]; omega,
      by simp [updateRenderSq]; omega⟩
    intro c hc
    rcases keys' c hc with ⟨hcs, hq⟩ | hct
    · have hr := hin c hcs
      unfold inRect at hr ⊢
      simp only [updateRenderSq] at *
      by_cases hcr : c.1 = s.rendered.x
      · exfalso
        have hi0 : (c.2 - s.rendered.top).toNat < s.rendered.height.toNat := by omega
        have hpmem : ((s.rendered.left, s.rendered.top + ((c.2 - s.rendered.top).toNat : ℤ)),
            (s.rendered.right + 1, s.rendered.top + ((c.2 - s.rendered.top).toNat : ℤ))) ∈
            rightPairs false s.rendered :=
          mem_rightPairs.2 ⟨(c.2 - s.rendered.top).toNat, hi0, by simp⟩
        refine hq _ hpmem ?_
        refine Prod.ext ?_ ?_
        · simp only
          omega
        · simp only
          omega
      · omega
    · rw [rightPairs_targets] at hct
      obtain ⟨i, hi, rfl⟩ := List.mem_map.1 hct
      rw [List.mem_range] at hi
      unfold inRect
      simp only [updateRenderSq]
      omega
  · rw [renderRight_true, rend']
    refine ⟨?_, nd', perm', ⟨rfl, rfl, rfl, rfl⟩, by simp [updateRenderSq]; omega,
      by simp [updateRenderSq]; omega⟩
    intro c hc
    rcases keys' c hc with ⟨hcs, _⟩ | hct
    · have hr := hin c hcs
      unfold inRect at hr ⊢
      simp only [updateRenderSq] at *
      omega
    · rw [rightPairs_targets] at hct
      obtain ⟨i, hi, rfl⟩ := List.mem_map.1 hct
      rw [List.mem_range] at hi
      unfold inRect
      simp only [updateRenderSq]
      omega

theorem inv_renderUp (ctx : Ctx) (f : Bool) {s : TState} (h : LayerInv s) :
    LayerInv (renderUp ctx f s) := by
  obtain ⟨hin, hnd, hperm, ⟨hsl, hsr, hst, hsb⟩, hw, hh⟩ := h
  have hfresh : ∀ p ∈ upPairs f s.rendered,
      lookupTile s.tiles p.2 = none ∨ p.2 = p.1 := by
    intro p hp
    obtain ⟨i, hi, rfl⟩ := mem_upPairs.1 hp
    left
    rw [lookupTile_eq_none_iff]
    intro hmem
    have hr := hin _ hmem
    unfold inRect at hr
    simp only at hr
    omega
  have hdist : ((upPairs f s.rendered).map (·.2)).Nodup := by
    rw [upPairs_targets]
    exact nodup_col_targets _ _ _
  obtain ⟨nd', perm', keys', rend', buf', px', py'⟩ :=
    moveSeq_spec ctx (upPairs f s.rendered) s hnd hperm hfresh hdist
  cases f
  · rw [renderUp_false, rend']
    refine ⟨?_, nd', perm', ⟨rfl, rfl, rfl, rfl⟩, by simp [updateRenderSq]; omega,
      by simp [updateRenderSq]; omega⟩
    intro c hc
    rcases keys' c hc with ⟨hcs, hq⟩ | hct
    · have hr := hin c hcs
      unfold inRect at hr ⊢
      simp only [updateRenderSq] at *
      by_cases hcr : c.2 = s.rendered.y + s.rendered.height - 1
      · exfalso
        have hi0 : (c.1 - s.rendered.left).toNat < s.rendered.width.toNat := by omega
        have hpmem : ((s.rendered.left + ((c.1 - s.rendered.left).toNat : ℤ), s.rendered.bottom),
            (s.rendered.left + ((c.1 - s.rendered.left).toNat : ℤ), s.rendered.top - 1)) ∈
            upPairs false s.rendered :=
          mem_upPairs.2 ⟨(c.1 - s.rendered.left).toNat, hi0, by simp⟩
        refine hq _ hpmem ?_
        refine Prod.ext ?_ ?_
        · simp only
          omega
        · simp only
          omega
      · omega
    · rw [upPairs_targets] at hct
      obtain ⟨i, hi, rfl⟩ := List.mem_map.1 hct
      rw [List.mem_range] at hi
      unfold inRect
      simp only [updateRenderSq]
      omega
  · rw [renderUp_true, rend']
    refine ⟨?_, nd', perm', ⟨rfl, rfl, rfl, rfl⟩, by simp [updateRenderSq]; omega,
      by simp [updateRenderSq]; omega⟩
    intro c hc
    rcases keys' c hc with ⟨hcs, _⟩ | hct
    · have hr := hin c hcs
      unfold inRect at hr ⊢
      simp only [updateRenderSq] at *
      omega
    · rw [upPairs_targets] at hct
      obtain ⟨i, hi, rfl⟩ := List.mem_map.1 hct
      rw [List.mem_range] at hi
      unfold inRect
      simp only [updateRenderSq]
      omega

theorem inv_renderDown (ctx : Ctx) (f : Bool) {s : TState} (h : LayerInv s) :
    LayerInv (renderDown ctx f s) := by
  obtain ⟨hin, hnd, hperm, ⟨hsl, hsr, hst, hsb⟩, hw, hh⟩ := h
  have hfresh : ∀ p ∈ downPairs f s.rendered,
      lookupTile s.tiles p.2 = none ∨ p.2 = p.1 := by
    intro p hp
    obtain ⟨i, hi, rfl⟩ := mem_downPairs.1 hp
    left
    rw [lookupTile_eq_none_iff]
    intro hmem
    have hr := hin _ hmem
    unfold inRect at hr
    simp only at hr
    omega
  have hdist : ((downPairs f s.rendered).map (·.2)).Nodup := by
    rw [downPairs_targets]
    exact nodup_col_targets _ _ _
  obtain ⟨nd', perm', keys', rend', buf', px', py'⟩ :=
    moveSeq_spec ctx (downPairs f s.rendered) s hnd hperm hfresh hdist
  cases f
  · rw [renderDown_false, rend']
    refine ⟨?_, nd', perm', ⟨rfl, rfl, rfl, rfl⟩, by simp [updateRenderSq]; omega,
      by simp [updateRenderSq]; omega⟩
    intro c hc
    rcases keys' c hc with ⟨hcs, hq⟩ | hct
    · have hr := hin c hcs
      unfold inRect at hr ⊢
      simp only [updateRenderSq] at *
      by_cases hcr : c.2 = s.rendered.y
      · exfalso
        have hi0 : (c.1 - s.rendered.left).toNat < s.rendered.width.toNat := by omega
        have hpmem : ((s.rendered.left + ((c.1 - s.rendered.left).toNat : ℤ), s.rendered.top),
            (s.rendered.left + ((c.1 - s.rendered.left).toNat : ℤ), s.rendered.bottom + 1)) ∈
            downPairs false s.rendered :=
          mem_downPairs.2 ⟨(c.1 - s.rendered.left).toNat, hi0, by simp⟩
        refine hq _ hpmem ?_
        refine Prod.ext ?_ ?_
        · simp only
          omega
        · simp only
          omega
      · omega
    · rw [downPairs_targets] at hct
      obtain ⟨i, hi, rfl⟩ := List.mem_map.1 hct
      rw [List.mem_range] at hi
      unfold inRect
      simp only [updateRenderSq]
      omega
  · rw [renderDown_true, rend']
    refine ⟨?_, nd', perm', ⟨rfl, rfl, rfl, rfl⟩, by simp [updateRenderSq]; omega,
      by simp [updateRenderSq]; omega⟩
    intro c hc
    rcases keys' c hc with ⟨hcs, _⟩ | hct
    · have hr := hin c hcs
      unfold inRect at hr ⊢
      simp only [updateRenderSq] at *
      omega
    · rw [downPairs_targets] at hct
      obtain ⟨i, hi, rfl⟩ := List.mem_map.1 hct
      rw [List.mem_range] at hi
      unfold inRect
      simp only [updateRenderSq]
      omega

theorem inv_iterate (f : TState → TState)
    (hf : ∀ t, LayerInv t → LayerInv (f t)) :
    ∀ (n : ℕ) (t : TState), LayerInv t → LayerInv (iterateN f n t) := by
  intro n
  induction n with
  | zero => intro t ht; exact ht
  | succ m ih => intro t ht; exact ih (f t) (hf t ht)

theorem layerInv_setPanXY (t : TState) (a b : ℤ) (h : LayerInv t) :
    LayerInv { t with panX := a, panY := b } := h

theorem layerInv_setPanX (t : TState) (a : ℤ) (h : LayerInv t) :
    LayerInv { t with panX := a } := h

theorem layerInv_setPanY (t : TState) (a : ℤ) (h : LayerInv t) :
    LayerInv { t with panY := a } := h

theorem layerInv_setBuffered (t : TState) (bf : Buffered) (h : LayerInv t) :
    LayerInv { t with buffered := bf } := h

theorem inv_pan (ctx : Ctx) (dx dy : ℤ) {s : TState} (h : LayerInv s) :
    LayerInv (pan ctx s dx dy) := by
  unfold pan
  refine inv_iterate _ (fun t ht => inv_renderDown ctx false ht) _ _ ?_
  refine layerInv_setPanY _ _ ?_
  refine inv_iterate _ (fun t ht => inv_renderUp ctx false ht) _ _ ?_
  refine layerInv_setPanY _ _ ?_
  refine inv_iterate _ (fun t ht => inv_renderRight ctx false ht) _ _ ?_
  refine layerInv_setPanX _ _ ?_
  refine inv_iterate _ (fun t ht => inv_renderLeft ctx false ht) _ _ ?_
  refine layerInv_setPanX _ _ ?_
  split_ifs with h1 h2 h3 h4
  · exact inv_renderLeft ctx true (layerInv_setBuffered _ _ (layerInv_setPanXY _ _ _ h))
  · exact inv_renderRight ctx true (layerInv_setBuffered _ _ (layerInv_setPanXY _ _ _ h))
  · exact inv_renderUp ctx true (layerInv_setBuffered _ _ (layerInv_setPanXY _ _ _ h))
  · exact inv_renderDown ctx true (layerInv_setBuffered _ _ (layerInv_setPanXY _ _ _ h))
  · exact layerInv_setPanXY _ _ _ h

/-! ### `clearTiles` and `renderTiles` -/

theorem foldl_hideRelease_length (l : List ℕ) :
    ∀ ns : List NodeR, (l.foldl hideRelease ns).length = ns.length := by
  induction l with
  | nil => intro ns; rfl
  | cons t l ih =>
    intro ns
    simp only [List.foldl_cons]
    rw [ih]
    exact updNode_length ns t _

theorem cons_clearTiles {s : TState} (h : ConsState s) :
    ConsState (clearTiles s) := by
  unfold ConsState clearTiles
  simp only [List.map_nil, List.nil_append]
  rw [foldl_hideRelease_length]
  exact (List.perm_append_comm).trans h

theorem mem_cellList {a b ex ey : ℤ} {c : ℤ × ℤ} :
    c ∈ cellList a b ex ey ↔ ∃ i : ℕ, i < (ex - a).toNat ∧
      ∃ j : ℕ, j < (ey - b).toNat ∧ c = (a + (i : ℤ), b + (j : ℤ)) := by
  simp only [cellList, List.mem_flatMap, List.mem_map, List.mem_range]
  constructor
  · rintro ⟨i, hi, j, hj, rfl⟩
    exact ⟨i, hi, j, hj, rfl⟩
  · rintro ⟨i, hi, j, hj, rfl⟩
    exact ⟨i, hi, j, hj, rfl⟩

theorem nodup_cellList (a b ex ey : ℤ) : (cellList a b ex ey).Nodup := by
  unfold cellList
  rw [List.nodup_flatMap]
  constructor
  · intro i _
    exact nodup_row_targets _ _ _
  · have hpw := List.pairwise_lt_range ((ex - a).toNat)
    refine hpw.imp ?_
    intro i j hij
    rw [Function.onFun, List.disjoint_left]
    rintro x hx hx'
    simp only [List.mem_map, List.mem_range] at hx hx'
    obtain ⟨j₁, _, rfl⟩ := hx
    obtain ⟨j₂, _, hx'⟩ := hx'
    simp only [Prod.mk.injEq] at hx'
    omega

/-- `renderTiles` on in-range arguments, rewritten as a clear followed by a
`moveSeq` of self-binding calls over the cell list. -/
theorem renderTiles_eq_of_valid (ctx : Ctx) (s : TState) {a b nx ny : ℤ}
    (ha : 0 ≤ a) (hb : 0 ≤ b)
    (hW : a + nx ≤ ctx.sizeP.1) (hH : b + ny ≤ ctx.sizeP.2) :
    renderTiles ctx s a b nx ny =
      { moveSeq ctx ((cellList a b (a + nx) (b + ny)).map (fun c => (c, c)))
          (clearTiles s) with
        rendered := updateRenderSq
          { (moveSeq ctx ((cellList a b (a + nx) (b + ny)).map (fun c => (c, c)))
              (clearTiles s)).rendered with
            x := a, y := b, width := a + nx - a, height := b + ny - b },
        buffered := { left := false, right := false, top := false, bottom := false },
        panX := jsMod ctx.parentPosition.1 ctx.scaledTileSize.1,
        panY := jsMod ctx.parentPosition.2 ctx.scaledTileSize.2 } := by
  unfold renderTiles moveSeq
  rw [List.foldl_map]
  simp only [if_neg (not_lt.2 ha), if_neg (not_lt.2 hb), if_pos hW, if_pos hH]

theorem clearTiles_frame (s : TState) :
    (clearTiles s).rendered = s.rendered ∧ (clearTiles s).tiles = [] :=
  ⟨rfl, rfl⟩

/-- `renderTiles` with a nonnegative in-bounds start and a positive window
establishes the layer invariant, regardless of the incoming grid (which it
first drains to the pool), and its rectangle is the requested window. -/
theorem inv_renderTiles (ctx : Ctx) (s : TState) {a b nx ny : ℤ}
    (hcons : ConsState s)
    (ha : 0 ≤ a) (hb : 0 ≤ b) (hnx : 1 ≤ nx) (hny : 1 ≤ ny)
    (hW : a + nx ≤ ctx.sizeP.1) (hH : b + ny ≤ ctx.sizeP.2) :
    LayerInv (renderTiles ctx s a b nx ny) ∧
    (renderTiles ctx s a b nx ny).rendered.x = a ∧
    (renderTiles ctx s a b nx ny).rendered.y = b ∧
    (renderTiles ctx s a b nx ny).rendered.width = a + nx - a ∧
    (renderTiles ctx s a b nx ny).rendered.height = b + ny - b := by
  have hnd0 : ((clearTiles s).tiles.map (·.1)).Nodup := by
    rw [(clearTiles_frame s).2]
    exact List.nodup_nil
  have hperm0 := cons_clearTiles hcons
  have hfresh : ∀ p ∈ (cellList a b (a + nx) (b + ny)).map (fun c => (c, c)),
      lookupTile (clearTiles s).tiles p.2 = none ∨ p.2 = p.1 := by
    intro p hp
    obtain ⟨c, _, rfl⟩ := List.mem_map.1 hp
    exact Or.inr rfl
  have hdist : (((cellList a b (a + nx) (b + ny)).map (fun c => (c, c))).map
      (·.2)).Nodup := by
    rw [List.map_map]
    have : ((fun p : (ℤ × ℤ) × (ℤ × ℤ) => p.2) ∘ (fun c : ℤ × ℤ => (c, c))) = id := by
      funext c
      rfl
    rw [this, List.map_id]
    exact nodup_cellList _ _ _ _
  obtain ⟨nd', perm', keys', rend', buf', px', py'⟩ :=
    moveSeq_spec ctx ((cellList a b (a + nx) (b + ny)).map (fun c => (c, c)))
      (clearTiles s) hnd0 hperm0 hfresh hdist
  rw [renderTiles_eq_of_valid ctx s ha hb hW hH]
  refine ⟨⟨?_, nd', perm', ⟨rfl, rfl, rfl, rfl⟩, by simp [updateRenderSq]; omega,
    by simp [updateRenderSq]; omega⟩, rfl, rfl, rfl, rfl⟩
  intro c hc
  rcases keys' c hc with ⟨hcs, _⟩ | hct
  · rw [(clearTiles_frame s).2] at hcs
    simp at hcs
  · rw [List.map_map] at hct
    have hcomp : ((fun p : (ℤ × ℤ) × (ℤ × ℤ) => p.2) ∘ (fun c : ℤ × ℤ => (c, c))) = id := by
      funext c
      rfl
    rw [hcomp, List.map_id] at hct
    obtain ⟨i, hi, j, hj, rfl⟩ := mem_cellList.1 hct
    unfold inRect
    simp only [updateRenderSq]
    omega

theorem inv_clearTiles {s : TState} (h : LayerInv s) : LayerInv (clearTiles s) := by
  obtain ⟨_, _, hperm, hsync, hw, hh⟩ := h
  refine ⟨?_, ?_, cons_clearTiles hperm, hsync, hw, hh⟩
  · rw [(clearTiles_frame s).2]
    intro c hc
    simp at hc
  · rw [(clearTiles_frame s).2]
    exact List.nodup_nil

theorem inv_applyOp (ctx : Ctx) {s : TState} (op : HostOp) (hok : OkOp ctx op)
    (h : LayerInv s) : LayerInv (applyOp ctx s op) := by
  cases op with
  | render a b nx ny =>
    obtain ⟨ha, hb, hnx, hny, hW, hH⟩ := hok
    exact (inv_renderTiles ctx s h.2.2.1 ha hb hnx hny hW hH).1
  | clear => exact inv_clearTiles h
  | panBy dx dy => exact inv_pan ctx dx dy h

theorem inv_runOps (ctx : Ctx) (ops : List HostOp) :
    ∀ s : TState, LayerInv s → (∀ op ∈ ops, OkOp ctx op) →
    LayerInv (runOps ctx s ops) := by
  induction ops with
  | nil => intro s h _; exact h
  | cons op ops ih =>
    intro s h hok
    exact ih _ (inv_applyOp ctx op (hok op (List.mem_cons_self _ _)) h)
      (fun o ho => hok o (List.mem_cons_of_mem _ ho))

theorem inv_runPans (ctx : Ctx) (ds : List (ℤ × ℤ)) :
    ∀ s : TState, LayerInv s → LayerInv (runPans ctx s ds) := by
  induction ds with
  | nil => intro s h; exact h
  | cons d ds ih =>
    intro s h
    exact ih _ (inv_pan ctx d.1 d.2 h)

/-- Claim C1 (counterexample): starting from `renderTiles(0,0,2,2)` on an
empty 4x4 map, a single `pan(1,0)` moves the rendered rectangle to
`x = -1`, outside the map bounds — the claim's "the rendered rectangle
itself lies inside the map bounds: 0 <= x" fails after this pan call. -/
theorem c1_counterexample :
    (pan ctxEmpty4 (renderTiles ctxEmpty4 initState 0 0 2 2) 1 0).rendered.x = -1 ∧
    ¬ (0 ≤ (pan ctxEmpty4 (renderTiles ctxEmpty4 initState 0 0 2 2) 1 0).rendered.x) := by
  decide

/-- Claim C1 (amended): for every sequence of host calls starting with a
`renderTiles` whose start is nonnegative and whose positive window fits the
map, followed by arbitrary `pan` calls: right after the `renderTiles` the
rendered rectangle lies inside the map bounds, and after every subsequent
`pan` every coordinate that maps to a live node in the tiles grid still lies
inside the current rendered rectangle — but the rectangle itself is not kept
inside the map bounds by `pan` (see the counterexample). -/
theorem c1_amended (ctx : Ctx) (a b nx ny : ℤ) (pans : List (ℤ × ℤ))
    (h : ValidRenderArgs ctx a b nx ny) :
    ((0 ≤ (renderTiles ctx initState a b nx ny).rendered.x ∧
      0 ≤ (renderTiles ctx initState a b nx ny).rendered.y ∧
      (renderTiles ctx initState a b nx ny).rendered.x +
        (renderTiles ctx initState a b nx ny).rendered.width ≤ ctx.sizeP.1 ∧
      (renderTiles ctx initState a b nx ny).rendered.y +
        (renderTiles ctx initState a b nx ny).rendered.height ≤ ctx.sizeP.2)) ∧
    (∀ c ∈ (runPans ctx (renderTiles ctx initState a b nx ny) pans).tiles.map (·.1),
      inRect (runPans ctx (renderTiles ctx initState a b nx ny) pans).rendered c) := by
  obtain ⟨ha, hb, hnx, hny, hW, hH⟩ := h
  have hcons : ConsState initState := List.Perm.nil
  obtain ⟨hinv, hx, hy, hwid, hhei⟩ :=
    inv_renderTiles ctx initState hcons ha hb hnx hny hW hH
  constructor
  · rw [hx, hy, hwid, hhei]
    refine ⟨ha, hb, by omega, by omega⟩
  · exact (inv_runPans ctx pans _ hinv).1

/-- Witness for the amended claim C1 at a concrete valid instance. -/
theorem c1_witness :
    ValidRenderArgs ctxEmpty4 0 0 1 1 ∧
    0 ≤ (renderTiles ctxEmpty4 initState 0 0 1 1).rendered.x :=
  ⟨by decide, (c1_amended ctxEmpty4 0 0 1 1 [] (by decide)).1.1⟩

/-- Claim C2 (counterexample): `moveTileSprite` onto an occupied target
coordinate drops the previous occupant from both the live grid and the pool.
After `renderTiles(0,0,2,1)` on a 2x1 map with two resolvable tiles, the
call `moveTileSprite(0,0,1,0)` leaves node 1 in neither structure, so
(live count) + (pooled count) = 1 while 2 nodes were created. -/
theorem c2_counterexample :
    (moveTileSprite ctxPair (renderTiles ctxPair initState 0 0 2 1) 0 0 1 0).tiles.length +
      (moveTileSprite ctxPair (renderTiles ctxPair initState 0 0 2 1) 0 0 1 0).tilePool.length ≠
      (moveTileSprite ctxPair (renderTiles ctxPair initState 0 0 2 1) 0 0 1 0).nodes.length ∧
    ((moveTileSprite ctxPair (renderTiles ctxPair initState 0 0 2 1) 0 0 1 0).tiles.map (·.2) ++
      (moveTileSprite ctxPair (renderTiles ctxPair initState 0 0 2 1) 0 0 1 0).tilePool).count 1 = 0 ∧
    (moveTileSprite ctxPair (renderTiles ctxPair initState 0 0 2 1) 0 0 1 0).nodes.length = 2 := by
  decide

/-- Claim C2 (amended): along every sequence that starts with a valid
`renderTiles` and continues with `renderTiles` (valid arguments),
`clearTiles` and `pan` calls, each node ever created is a member of exactly
one of the live grid and the pool (it appears exactly once in their
concatenation), and (live count) + (pooled count) = (count of nodes ever
created).  A direct `moveTileSprite` onto an occupied coordinate violates
this (see the counterexample). -/
theorem c2_amended (ctx : Ctx) (a b nx ny : ℤ) (ops : List HostOp)
    (hargs : ValidRenderArgs ctx a b nx ny)
    (hok : ∀ op ∈ ops, OkOp ctx op) :
    (∀ n, n < (runOps ctx (renderTiles ctx initState a b nx ny) ops).nodes.length →
      ((runOps ctx (renderTiles ctx initState a b nx ny) ops).tiles.map (·.2) ++
        (runOps ctx (renderTiles ctx initState a b nx ny) ops).tilePool).count n = 1) ∧
    (runOps ctx (renderTiles ctx initState a b nx ny) ops).tiles.length +
      (runOps ctx (renderTiles ctx initState a b nx ny) ops).tilePool.length =
      (runOps ctx (renderTiles ctx initState a b nx ny) ops).nodes.length := by
  obtain ⟨ha, hb, hnx, hny, hW, hH⟩ := hargs
  have hinv1 :=
    (inv_renderTiles ctx initState List.Perm.nil ha hb hnx hny hW hH).1
  have hinv := inv_runOps ctx ops _ hinv1 hok
  obtain ⟨_, _, hperm, _⟩ := hinv
  constructor
  · intro n hn
    rw [List.Perm.count_eq hperm]
    exact List.count_eq_one_of_mem (List.nodup_range _) (List.mem_range.2 hn)
  · have hlen := hperm.length_eq
    simp only [List.length_append, List.length_map, List.length_range] at hlen
    exact hlen

/-- Witness for the amended claim C2 at a concrete valid instance. -/
theorem c2_witness :
    ValidRenderArgs ctxPair 0 0 2 1 ∧
    (runOps ctxPair (renderTiles ctxPair initState 0 0 2 1) []).tiles.length +
      (runOps ctxPair (renderTiles ctxPair initState 0 0 2 1) []).tilePool.length =
      (runOps ctxPair (renderTiles ctxPair initState 0 0 2 1) []).nodes.length :=
  ⟨by decide, (c2_amended ctxPair 0 0 2 1 [] (by decide)
    (fun op ho => absurd ho (List.not_mem_nil _))).2⟩

set_option maxRecDepth 100000 in
/-- Claim C3 (counterexample): from `renderTiles(0,0,10,10)` with tile width
32 and accumulator 0, ten `pan(32,0)` calls leave the window at `x = -11`
(one tile per call to the LEFT, plus one extra column from the first call's
left-edge buffering) — not at `x = 10` as the claim's "shifts the window
exactly ten tiles to the right" requires. -/
theorem c3_counterexample :
    (c3After 10).rendered.x = -11 ∧ ¬ ((c3After 10).rendered.x = 0 + 10) := by
  decide

set_option maxRecDepth 400000 in
/-- Claim C3 (amended): ten `pan(32,0)` calls from `renderTiles(0,0,10,10)`
with tile width 32 shift the window exactly ten tiles to the LEFT, plus one
extra initial decrement from the left-edge buffering (final `x = -11`), and
the pixel accumulator `panX` returns to 0 after each whole-tile shift. -/
theorem c3_amended :
    (c3After 10).rendered.x = -11 ∧
    ((List.range 10).all (fun k => decide ((c3After (k + 1)).panX = 0))) = true := by
  decide

/-- Claim C7 (confirmed): the interactive flag is resolved by a
first-defined-source-wins fallback chain in the exact order tile
properties, tileset properties, layer properties, map properties, with no
merging, and defaults to false — `_getInteractive` coincides with the
ordered-first-match resolution function for every input. -/
theorem c7_interactive_chain (ctx : Ctx) (set : Tileset) (o : TileProps) :
    getInteractive ctx set o =
      resolveInteractiveSpec
        [(o.interactive, o.interactiveTiles),
         (set.properties.interactive, set.properties.interactiveTiles),
         (ctx.layerProperties.interactive, ctx.layerProperties.interactiveTiles),
         (ctx.mapProperties.interactive, ctx.mapProperties.interactiveTiles)] := by
  unfold getInteractive resolveInteractiveSpec
  cases h1 : o.interactive.isSome || o.interactiveTiles.isSome
  · cases h2 : set.properties.interactive.isSome || set.properties.interactiveTiles.isSome
    · cases h3 : ctx.layerProperties.interactive.isSome ||
          ctx.layerProperties.interactiveTiles.isSome
      · cases h4 : ctx.mapProperties.interactive.isSome ||
            ctx.mapProperties.interactiveTiles.isSome
        · simp [List.find?, definesInteractive, h1, h2, h3, h4]
        · simp [List.find?, definesInteractive, interactiveFlag, h1, h2, h3, h4]
      · simp [List.find?, definesInteractive, interactiveFlag, h1, h2, h3]
    · simp [List.find?, definesInteractive, interactiveFlag, h1, h2]
  · simp [List.find?, definesInteractive, interactiveFlag, h1]

/-- Claim C8 (confirmed): on an isometric map the bound pixel position is
pixelX = (tileX − tileY)·(tileWidth/2) + (layerTileWidth − tilesetTileWidth)
+ tilesetOffsetX and pixelY = (tileX + tileY)·(tileHeight/2) +
(layerTileHeight − tilesetTileHeight) + tilesetOffsetY, for every tile
coordinate and every tile/tileset geometry. -/
theorem c8_iso_formula (pTile sTile sOff : ℤ × ℤ) (tx ty : ℤ) :
    tilePosition true pTile sTile sOff tx ty =
      (((tx : ℚ) - (ty : ℚ)) * ((pTile.1 : ℚ) / 2) +
         ((pTile.1 : ℚ) - (sTile.1 : ℚ)) + (sOff.1 : ℚ),
       ((tx : ℚ) + (ty : ℚ)) * ((pTile.2 : ℚ) / 2) +
         ((pTile.2 : ℚ) - (sTile.2 : ℚ)) + (sOff.2 : ℚ)) := by
  unfold tilePosition
  rw [if_pos rfl]
  refine Prod.ext ?_ ?_
  · simp only
    ring
  · simp only
    ring

/-- Claim C9 (counterexample): with isometric projection, layer tile size
(64,32), tileset tile size (64,32) and offset (0,0), tile (1,0) projects to
pixel (32,16) — not (64,16) as the claim states. -/
theorem c9_counterexample :
    tilePosition true (64, 32) (64, 32) (0, 0) 1 0 ≠ ((64 : ℚ), (16 : ℚ)) ∧
    tilePosition true (64, 32) (64, 32) (0, 0) 1 0 = ((32 : ℚ), (16 : ℚ)) := by
  have hval : tilePosition true (64, 32) (64, 32) (0, 0) 1 0 = ((32 : ℚ), (16 : ℚ)) := by
    unfold tilePosition
    rw [if_pos rfl]
    norm_num
  refine ⟨?_, hval⟩
  rw [hval]
  intro h
  rw [Prod.mk.injEq] at h
  norm_num at h

/-- Claim C9 (amended): under that geometry, binding the tile at (1,0)
places its node at pixel position (32,16). -/
theorem c9_amended :
    (getNode (moveTileSprite ctxIso initState 1 0 1 0) 0).pos =
      ((32 : ℚ), (16 : ℚ)) := by
  have hres : resolveTileset ctxIso 1 0 = some (1, tsIso) := rfl
  have hfe : lookupTile initState.tiles (1, 0) = none := rfl
  have hpop : initState.tilePool.getLast? = none := rfl
  rw [getNode, moveTileSprite_some_new hres hfe hpop]
  have hlen : (0 : ℕ) < (initState.nodes ++ [newTileNode (tsIso.getTileTexture 1)]).length := by
    decide
  have hupd := updNode_getD_same hlen (rebindNode ctxIso tsIso 1 1 0) defaultNode
  simp only [initState] at hupd ⊢
  simp only [List.length_nil]
  rw [hupd]
  simp only [rebindNode, tsIso, plainTileProps, getInteractive, ctxIso,
    emptyLayerProps]
  norm_num
  unfold tilePosition
  rw [if_pos rfl]
  norm_num

/-- Claim C10 (confirmed): when the departing coordinate holds a live node
and the entering coordinate's tile id resolves to a tileset,
`moveTileSprite` rebinds that same node to the entering coordinate and the
pool is left exactly as it was (no pop, no push). -/
theorem c10_rebind (ctx : Ctx) (s : TState) (fx fy tx ty : ℤ) (t : ℕ)
    (hfrom : lookupTile s.tiles (fx, fy) = some t)
    (hres : (resolveTileset ctx tx ty).isSome = true) :
    (moveTileSprite ctx s fx fy tx ty).tilePool = s.tilePool ∧
    lookupTile (moveTileSprite ctx s fx fy tx ty).tiles (tx, ty) = some t := by
  obtain ⟨pr, hpr⟩ := Option.isSome_iff_exists.1 hres
  obtain ⟨tid, set⟩ := pr
  rw [moveTileSprite_some_from hpr hfrom]
  refine ⟨rfl, ?_⟩
  unfold insertTile
  exact lookupTile_cons_self _ _ _

/-- Witness for claim C10 at a concrete live binding. -/
theorem c10_witness :
    lookupTile c5Bound.tiles (0, 0) = some 0 ∧
    (resolveTileset ctxRelease 0 0).isSome = true ∧
    (moveTileSprite ctxRelease c5Bound 0 0 0 0).tilePool = c5Bound.tilePool :=
  ⟨by decide, by decide,
    (c10_rebind ctxRelease c5Bound 0 0 0 0 0 (by decide) (by decide)).1⟩

theorem updNode_oob : ∀ (ns : List NodeR) (i : ℕ) (f : NodeR → NodeR),
    ns.length ≤ i → updNode ns i f = ns := by
  intro ns
  induction ns with
  | nil => intro i f _; rfl
  | cons n ns ih =>
    intro i f h
    cases i with
    | zero => simp at h
    | succ j =>
      simp only [updNode]
      rw [ih j f (by simpa using h)]

theorem hideRelease_getD (ns : List NodeR) (a t : ℕ) :
    ((hideRelease ns a).getD t defaultNode).callbacksOn =
      (ns.getD t defaultNode).callbacksOn ∧
    ((ns.getD t defaultNode).visible = false →
      ((hideRelease ns a).getD t defaultNode).visible = false) ∧
    ((ns.getD t defaultNode).physicsOn = false →
      ((hideRelease ns a).getD t defaultNode).physicsOn = false) ∧
    (t = a → t < ns.length →
      ((hideRelease ns a).getD t defaultNode).visible = false ∧
      ((hideRelease ns a).getD t defaultNode).physicsOn = false) := by
  unfold hideRelease
  by_cases hta : t = a
  · subst hta
    by_cases hlt : t < ns.length
    · rw [updNode_getD_same hlt]
      exact ⟨rfl, fun _ => rfl, fun _ => rfl, fun _ _ => ⟨rfl, rfl⟩⟩
    · rw [updNode_oob ns t _ (Nat.le_of_not_lt hlt)]
      exact ⟨rfl, fun h => h, fun h => h, fun _ h => absurd h hlt⟩
  · rw [updNode_getD_ne hta]
    exact ⟨rfl, fun h => h, fun h => h, fun h => absurd h hta⟩

theorem foldl_hideRelease_getD (l : List ℕ) : ∀ (ns : List NodeR) (t : ℕ),
    ((l.foldl hideRelease ns).getD t defaultNode).callbacksOn =
      (ns.getD t defaultNode).callbacksOn ∧
    ((ns.getD t defaultNode).visible = false →
      ((l.foldl hideRelease ns).getD t defaultNode).visible = false) ∧
    ((ns.getD t defaultNode).physicsOn = false →
      ((l.foldl hideRelease ns).getD t defaultNode).physicsOn = false) ∧
    (t ∈ l → t < ns.length →
      ((l.foldl hideRelease ns).getD t defaultNode).visible = false ∧
      ((l.foldl hideRelease ns).getD t defaultNode).physicsOn = false) := by
  induction l with
  | nil =>
    intro ns t
    exact ⟨rfl, fun h => h, fun h => h, fun h => absurd h (List.not_mem_nil _)⟩
  | cons a l ih =>
    intro ns t
    have hstep := hideRelease_getD ns a t
    have hlen : (hideRelease ns a).length = ns.length := updNode_length _ _ _
    have ihh := ih (hideRelease ns a) t
    refine ⟨?_, ?_, ?_, ?_⟩
    · rw [List.foldl_cons, ihh.1, hstep.1]
    · intro hv
      exact ihh.2.1 (hstep.2.1 hv)
    · intro hp
      exact ihh.2.2.1 (hstep.2.2.1 hp)
    · intro hmem hlt
      rcases List.mem_cons.1 hmem with rfl | hmem'
      · have h0 := hstep.2.2.2 rfl hlt
        exact ⟨ihh.2.1 h0.1, ihh.2.2.1 h0.2⟩
      · exact ihh.2.2.2 hmem' (by rw [hlen]; exact hlt)

/-- Claim C5 (counterexample): a collidable, interactive node released
through the `moveTileSprite` no-tileset path ends up in the pool hidden but
with its physics subscription still ENABLED and its pointer callbacks still
REGISTERED — the claim's "disables the node's physics subscription, leaves
its pointer callbacks unregistered" fails on this path. -/
theorem c5_counterexample :
    c5Released.tilePool = [0] ∧
    (getNode c5Released 0).visible = false ∧
    (getNode c5Released 0).physicsOn = true ∧
    (getNode c5Released 0).callbacksOn = true := by
  decide

/-- Claim C5 (amended): a node released by `clearTiles` is hidden, has its
physics disabled, keeps its pointer callbacks registered as before, and is
pushed to the pool; a node released by `moveTileSprite` when the target tile
id has no resolvable tileset is hidden and pushed to the pool, but its
physics subscription and pointer-callback registration are left exactly as
they were — neither release path unregisters pointer callbacks. -/
theorem c5_amended :
    (∀ (s : TState) (t : ℕ), t ∈ s.tiles.map (·.2) → t < s.nodes.length →
      t ∈ (clearTiles s).tilePool ∧
      (getNode (clearTiles s) t).visible = false ∧
      (getNode (clearTiles s) t).physicsOn = false ∧
      (getNode (clearTiles s) t).callbacksOn = (getNode s t).callbacksOn) ∧
    (∀ (ctx : Ctx) (s : TState) (fx fy tx ty : ℤ) (t : ℕ),
      resolveTileset ctx tx ty = none →
      lookupTile s.tiles (fx, fy) = some t → t < s.nodes.length →
      t ∈ (moveTileSprite ctx s fx fy tx ty).tilePool ∧
      (getNode (moveTileSprite ctx s fx fy tx ty) t).visible = false ∧
      (getNode (moveTileSprite ctx s fx fy tx ty) t).physicsOn =
        (getNode s t).physicsOn ∧
      (getNode (moveTileSprite ctx s fx fy tx ty) t).callbacksOn =
        (getNode s t).callbacksOn) := by
  constructor
  · intro s t hmem hlen
    have hfold := foldl_hideRelease_getD (s.tiles.map (·.2)) s.nodes t
    have hrel := hfold.2.2.2 hmem hlen
    exact ⟨List.mem_append_right _ hmem, hrel.1, hrel.2, hfold.1⟩
  · intro ctx s fx fy tx ty t hres hfe hlen
    rw [moveTileSprite_none_some hres hfe]
    refine ⟨List.mem_append_right _ (List.mem_singleton.2 rfl), ?_, ?_, ?_⟩
    · show ((updNode s.nodes t _).getD t defaultNode).visible = false
      rw [updNode_getD_same hlen]
    · show ((updNode s.nodes t _).getD t defaultNode).physicsOn = _
      rw [updNode_getD_same hlen]
      rfl
    · show ((updNode s.nodes t _).getD t defaultNode).callbacksOn = _
      rw [updNode_getD_same hlen]
      rfl

/-- Witness for the amended claim C5 at the concrete release scenario. -/
theorem c5_witness :
    lookupTile c5Bound.tiles (0, 0) = some 0 ∧
    0 ∈ (moveTileSprite ctxRelease c5Bound 0 0 1 0).tilePool ∧
    (getNode (moveTileSprite ctxRelease c5Bound 0 0 1 0) 0).physicsOn =
      (getNode c5Bound 0).physicsOn :=
  ⟨by decide,
   (c5_amended.2 ctxRelease c5Bound 0 0 1 0 0 rfl (by decide) (by decide)).1,
   (c5_amended.2 ctxRelease c5Bound 0 0 1 0 0 rfl (by decide) (by decide)).2.2.1⟩

/-- Effect of the `renderTiles` fill loop (self-binding `moveTileSprite`
calls over distinct, initially-unoccupied cells): the final grid keys are
exactly the resolvable cells (in reverse binding order) on top of the
initial keys, the pool shrinks by one pop per resolvable cell until empty,
and a node is created for each resolvable cell beyond the pool's supply. -/
theorem fill_spec (ctx : Ctx) (cells : List (ℤ × ℤ)) :
    ∀ s : TState, (∀ c ∈ cells, lookupTile s.tiles c = none) → cells.Nodup →
    (moveSeq ctx (cells.map (fun c => (c, c))) s).tiles.map (·.1) =
      (cells.filter (fun c => (resolveTileset ctx c.1 c.2).isSome)).reverse ++
        s.tiles.map (·.1) ∧
    (moveSeq ctx (cells.map (fun c => (c, c))) s).tilePool.length =
      s.tilePool.length -
        (cells.filter (fun c => (resolveTileset ctx c.1 c.2).isSome)).length ∧
    (moveSeq ctx (cells.map (fun c => (c, c))) s).nodes.length =
      s.nodes.length +
        ((cells.filter (fun c => (resolveTileset ctx c.1 c.2).isSome)).length -
          s.tilePool.length) := by
  induction cells with
  | nil =>
    intro s _ _
    simp [moveSeq]
  | cons c cells ih =>
    intro s hfresh hnodup
    obtain ⟨cx, cy⟩ := c
    simp only [List.map_cons] at *
    rw [moveSeq_cons]
    simp only [List.nodup_cons] at hnodup
    have hc : lookupTile s.tiles (cx, cy) = none :=
      hfresh (cx, cy) (List.mem_cons_self _ _)
    have hcnm : ((cx, cy) : ℤ × ℤ) ∉ s.tiles.map (·.1) :=
      (lookupTile_eq_none_iff _ _).1 hc
    cases hres : resolveTileset ctx cx cy with
    | none =>
      rw [moveTileSprite_none_none hres hc]
      have hfilter : ((cx, cy) :: cells).filter
          (fun c => (resolveTileset ctx c.1 c.2).isSome) =
          cells.filter (fun c => (resolveTileset ctx c.1 c.2).isSome) := by
        rw [List.filter_cons_of_neg]
        simp [hres]
      rw [hfilter] at *
      exact ih s (fun c' hc' => hfresh c' (List.mem_cons_of_mem _ hc')) hnodup.2
    | some pr =>
      obtain ⟨tid, set⟩ := pr
      have hfilter : ((cx, cy) :: cells).filter
          (fun c => (resolveTileset ctx c.1 c.2).isSome) =
          (cx, cy) :: cells.filter (fun c => (resolveTileset ctx c.1 c.2).isSome) := by
        rw [List.filter_cons_of_pos]
        simp [hres]
      rw [hfilter, List.reverse_cons, List.length_cons]
      cases hpop : s.tilePool.getLast? with
      | some t =>
        rw [moveTileSprite_some_pop hres hc hpop]
        have htins : insertTile s.tiles (cx, cy) t = ((cx, cy), t) :: s.tiles := by
          unfold insertTile
          rw [eraseTile_of_not_mem hcnm]
        have hplen : 1 ≤ s.tilePool.length := by
          rw [pool_decomp hpop, List.length_append, List.length_singleton]
          omega
        have hfresh' : ∀ c' ∈ cells,
            lookupTile ({ s with
                tiles := insertTile s.tiles (cx, cy) t,
                tilePool := s.tilePool.dropLast,
                nodes := updNode s.nodes t (rebindNode ctx set tid cx cy) } :
              TState).tiles c' = none := by
          intro c' hc'
          show lookupTile (insertTile s.tiles (cx, cy) t) c' = none
          rw [htins]
          have hne : ((cx, cy) : ℤ × ℤ) ≠ c' := fun he => hnodup.1 (he ▸ hc')
          rw [lookupTile_cons_ne t s.tiles hne]
          exact hfresh c' (List.mem_cons_of_mem _ hc')
        obtain ⟨ik, ip, inn⟩ := ih _ hfresh' hnodup.2
        refine ⟨?_, ?_, ?_⟩
        · rw [ik]
          show _ = _ ++ [((cx, cy) : ℤ × ℤ)] ++ s.tiles.map (·.1)
          rw [List.append_assoc, List.singleton_append]
          congr 1
          show (insertTile s.tiles (cx, cy) t).map (·.1) = _
          rw [htins, List.map_cons]
        · rw [ip]
          show s.tilePool.dropLast.length - _ = _
          rw [List.length_dropLast]
          omega
        · rw [inn]
          show (updNode s.nodes t _).length + _ = _
          rw [updNode_length]
          show _ + (_ - s.tilePool.dropLast.length) = _
          rw [List.length_dropLast]
          omega
      | none =>
        have hpool : s.tilePool = [] := by
          cases hp : s.tilePool with
          | nil => rfl
          | cons x l => rw [hp] at hpop; simp [List.getLast?_concat] at hpop
        rw [moveTileSprite_some_new hres hc hpop]
        have htins : insertTile s.tiles (cx, cy) s.nodes.length =
            ((cx, cy), s.nodes.length) :: s.tiles := by
          unfold insertTile
          rw [eraseTile_of_not_mem hcnm]
        have hfresh' : ∀ c' ∈ cells,
            lookupTile ({ s with
                tiles := insertTile s.tiles (cx, cy) s.nodes.length,
                tilePool := s.tilePool.dropLast,
                nodes := updNode (s.nodes ++ [newTileNode (set.getTileTexture tid)])
                  s.nodes.length (rebindNode ctx set tid cx cy) } :
              TState).tiles c' = none := by
          intro c' hc'
          show lookupTile (insertTile s.tiles (cx, cy) s.nodes.length) c' = none
          rw [htins]
          have hne : ((cx, cy) : ℤ × ℤ) ≠ c' := fun he => hnodup.1 (he ▸ hc')
          rw [lookupTile_cons_ne _ s.tiles hne]
          exact hfresh c' (List.mem_cons_of_mem _ hc')
        obtain ⟨ik, ip, inn⟩ := ih _ hfresh' hnodup.2
        refine ⟨?_, ?_, ?_⟩
        · rw [ik]
          show _ = _ ++ [((cx, cy) : ℤ × ℤ)] ++ s.tiles.map (·.1)
          rw [List.append_assoc, List.singleton_append]
          congr 1
          show (insertTile s.tiles (cx, cy) s.nodes.length).map (·.1) = _
          rw [htins, List.map_cons]
        · rw [ip]
          show s.tilePool.dropLast.length - _ = _
          rw [List.length_dropLast, hpool]
          simp
        · rw [inn]
          show (updNode _ _ _).length + _ = _
          rw [updNode_length, List.length_append, List.length_singleton]
          show _ + (_ - s.tilePool.dropLast.length) = _
          rw [List.length_dropLast, hpool]
          simp only [List.length_nil]
          omega

/-- `renderTiles` for arbitrary arguments, as a clear followed by the fill
`moveSeq` over the (possibly clamped, possibly degenerate) cell list, with
the rectangle/flags/accumulator updates after it. -/
theorem renderTiles_eq_general (ctx : Ctx) (s : TState) (a b nx ny : ℤ)
    (SX SY EX EY : ℤ)
    (hSX : SX = if a < 0 then 0 else a) (hSY : SY = if b < 0 then 0 else b)
    (hEX : EX = if SX + nx ≤ ctx.sizeP.1 then SX + nx else ctx.sizeP.1 - SX)
    (hEY : EY = if SY + ny ≤ ctx.sizeP.2 then SY + ny else ctx.sizeP.2 - SY) :
    renderTiles ctx s a b nx ny =
      { moveSeq ctx ((cellList SX SY EX EY).map (fun c => (c, c))) (clearTiles s) with
        rendered := updateRenderSq
          { (moveSeq ctx ((cellList SX SY EX EY).map (fun c => (c, c)))
              (clearTiles s)).rendered with
            x := SX, y := SY, width := EX - SX, height := EY - SY },
        buffered := { left := false, right := false, top := false, bottom := false },
        panX := jsMod ctx.parentPosition.1 ctx.scaledTileSize.1,
        panY := jsMod ctx.parentPosition.2 ctx.scaledTileSize.2 } := by
  subst hSX hSY hEX hEY
  unfold renderTiles moveSeq
  rw [List.foldl_map]

/-- Claim C6 (confirmed): invoking `renderTiles` twice in a row with
identical arguments is idempotent — after the second call the pool size and
the occupied coordinates of the live grid are identical to their state
after the first call (for every incoming state and every argument tuple). -/
theorem c6_idempotent (ctx : Ctx) (s : TState) (a b nx ny : ℤ) :
    (renderTiles ctx (renderTiles ctx s a b nx ny) a b nx ny).tilePool.length =
      (renderTiles ctx s a b nx ny).tilePool.length ∧
    (renderTiles ctx (renderTiles ctx s a b nx ny) a b nx ny).tiles.map (·.1) =
      (renderTiles ctx s a b nx ny).tiles.map (·.1) := by
  set SX : ℤ := if a < 0 then 0 else a with hSX
  set SY : ℤ := if b < 0 then 0 else b with hSY
  set EX : ℤ := if SX + nx ≤ ctx.sizeP.1 then SX + nx else ctx.sizeP.1 - SX with hEX
  set EY : ℤ := if SY + ny ≤ ctx.sizeP.2 then SY + ny else ctx.sizeP.2 - SY with hEY
  have h1 := renderTiles_eq_general ctx s a b nx ny SX SY EX EY hSX hSY hEX hEY
  have h2 := renderTiles_eq_general ctx (renderTiles ctx s a b nx ny) a b nx ny
    SX SY EX EY hSX hSY hEX hEY
  have hfill1 := fill_spec ctx (cellList SX SY EX EY) (clearTiles s)
    (fun c _ => rfl) (nodup_cellList _ _ _ _)
  have hfill2 := fill_spec ctx (cellList SX SY EX EY)
    (clearTiles (renderTiles ctx s a b nx ny))
    (fun c _ => rfl) (nodup_cellList _ _ _ _)
  have hkeys1 : (renderTiles ctx s a b nx ny).tiles.map (·.1) =
      ((cellList SX SY EX EY).filter
        (fun c => (resolveTileset ctx c.1 c.2).isSome)).reverse := by
    rw [h1]
    have := hfill1.1
    simpa [clearTiles] using this
  have hpool1 : (renderTiles ctx s a b nx ny).tilePool.length =
      (clearTiles s).tilePool.length -
        ((cellList SX SY EX EY).filter
          (fun c => (resolveTileset ctx c.1 c.2).isSome)).length := by
    rw [h1]
    exact hfill1.2.1
  have hlen1 : (renderTiles ctx s a b nx ny).tiles.length =
      ((cellList SX SY EX EY).filter
        (fun c => (resolveTileset ctx c.1 c.2).isSome)).length := by
    have := congrArg List.length hkeys1
    simpa using this
  constructor
  · rw [h2]
    have hp2 := hfill2.2.1
    have hclear : (clearTiles (renderTiles ctx s a b nx ny)).tilePool.length =
        (renderTiles ctx s a b nx ny).tilePool.length +
          (renderTiles ctx s a b nx ny).tiles.length := by
      simp [clearTiles]
    show (moveSeq ctx ((cellList SX SY EX EY).map (fun c => (c, c)))
      (clearTiles (renderTiles ctx s a b nx ny))).tilePool.length = _
    rw [hp2, hclear, hlen1]
    omega
  · rw [h2]
    have hk2 := hfill2.1
    show (moveSeq ctx ((cellList SX SY EX EY).map (fun c => (c, c)))
      (clearTiles (renderTiles ctx s a b nx ny))).tiles.map (·.1) = _
    rw [hk2, hkeys1]
    simp [clearTiles]

theorem moveSeq_frame (ctx : Ctx) (ps : List ((ℤ × ℤ) × (ℤ × ℤ))) :
    ∀ s : TState, (moveSeq ctx ps s).rendered = s.rendered ∧
    (moveSeq ctx ps s).buffered = s.buffered ∧
    (moveSeq ctx ps s).panX = s.panX ∧ (moveSeq ctx ps s).panY = s.panY := by
  induction ps with
  | nil => intro s; exact ⟨rfl, rfl, rfl, rfl⟩
  | cons p ps ih =>
    intro s
    rw [moveSeq_cons]
    have hf := moveTileSprite_frame ctx s p.1.1 p.1.2 p.2.1 p.2.2
    have hi := ih (moveTileSprite ctx s p.1.1 p.1.2 p.2.1 p.2.2)
    exact ⟨hi.1.trans hf.1, hi.2.1.trans hf.2.1, hi.2.2.1.trans hf.2.2.1,
      hi.2.2.2.trans hf.2.2.2⟩

theorem renderUp_keep (ctx : Ctx) (f : Bool) (s : TState) :
    (renderUp ctx f s).rendered.x = s.rendered.x ∧
    (renderUp ctx f s).buffered = s.buffered ∧
    (renderUp ctx f s).panX = s.panX := by
  have hf := moveSeq_frame ctx (upPairs f s.rendered) s
  cases f
  · rw [renderUp_false]
    exact ⟨by show (moveSeq _ _ _).rendered.x = _; rw [hf.1], hf.2.1, hf.2.2.1⟩
  · rw [renderUp_true]
    exact ⟨by show (moveSeq _ _ _).rendered.x = _; rw [hf.1], hf.2.1, hf.2.2.1⟩

theorem renderDown_keep (ctx : Ctx) (f : Bool) (s : TState) :
    (renderDown ctx f s).rendered.x = s.rendered.x ∧
    (renderDown ctx f s).buffered = s.buffered ∧
    (renderDown ctx f s).panX = s.panX := by
  have hf := moveSeq_frame ctx (downPairs f s.rendered) s
  cases f
  · rw [renderDown_false]
    exact ⟨by show (moveSeq _ _ _).rendered.x = _; rw [hf.1], hf.2.1, hf.2.2.1⟩
  · rw [renderDown_true]
    exact ⟨by show (moveSeq _ _ _).rendered.x = _; rw [hf.1], hf.2.1, hf.2.2.1⟩

theorem iterateN_pres (P : TState → Prop) (f : TState → TState)
    (hf : ∀ t, P t → P (f t)) :
    ∀ (n : ℕ) (t : TState), P t → P (iterateN f n t) := by
  intro n
  induction n with
  | zero => intro t ht; exact ht
  | succ m ih => intro t ht; exact ih (f t) (hf t ht)

theorem c4P_setPanY (t : TState) (v dx : ℤ)
    (h : t.panX = dx ∧ t.buffered.left = true ∧ t.rendered.x = -1) :
    ({ t with panY := v } : TState).panX = dx ∧
    ({ t with panY := v } : TState).buffered.left = true ∧
    ({ t with panY := v } : TState).rendered.x = -1 := h

/-- Claim C4 (counterexample): `pan(5,0)` before any `renderTiles` on the
4x4 map is NOT a rejected no-op — it sets the accumulator to 5, marks the
left edge buffered, and moves the rendered rectangle to `x = -1`. -/
theorem c4_counterexample :
    (pan ctxEmpty4 initState 5 0).panX = 5 ∧
    (pan ctxEmpty4 initState 5 0).buffered.left = true ∧
    (pan ctxEmpty4 initState 5 0).rendered.x = -1 ∧
    ¬ (pan ctxEmpty4 initState 5 0 = initState) := by
  decide

/-- Claim C4 (amended): `pan(dx,dy)` invoked before any `renderTiles` is
not rejected: there is no state guard at all.  For every context and every
`0 < dx <` tile width, the call leaves the accumulator at `dx`, sets the
left buffered flag, and decrements the (still zero-sized) rendered
rectangle's x to -1 — the rectangle, flags and accumulator all change. -/
theorem c4_amended (ctx : Ctx) (dx dy : ℤ) (h1 : 0 < dx)
    (h2 : dx < ctx.scaledTileSize.1) :
    (pan ctx initState dx dy).panX = dx ∧
    (pan ctx initState dx dy).buffered.left = true ∧
    (pan ctx initState dx dy).rendered.x = -1 := by
  unfold pan
  have hcond : dx > 0 ∧ ({ initState with
      panX := initState.panX + dx,
      panY := initState.panY + dy } : TState).buffered.left = false := ⟨h1, rfl⟩
  simp only [if_pos hcond]
  have hS1 : renderLeft ctx true
      { { initState with
          panX := initState.panX + dx,
          panY := initState.panY + dy } with
        buffered := { ({ initState with
          panX := initState.panX + dx,
          panY := initState.panY + dy } : TState).buffered with left := true } } =
      ({ tiles := [], tilePool := [], nodes := [],
         buffered := { left := true, right := false, top := false, bottom := false },
         panX := 0 + dx, panY := 0 + dy,
         rendered := { x := -1, y := 0, width := 1, height := 0,
                       left := -1, right := -1, top := 0, bottom := -1 } } : TState) := by
    rfl
  rw [hS1]
  have hn1 : shiftCountPos (((0 : ℤ) + dx)) ctx.scaledTileSize.1 = 0 := by
    unfold shiftCountPos
    rw [if_neg]
    omega
  simp only [hn1, Nat.cast_zero, zero_mul, sub_zero]
  have hn2 : shiftCountNeg (((0 : ℤ) + dx)) ctx.scaledTileSize.1 = 0 := by
    unfold shiftCountNeg
    rw [if_neg]
    omega
  simp only [hn2, Nat.cast_zero, zero_mul, add_zero, iterateN]
  refine iterateN_pres
    (fun t => t.panX = dx ∧ t.buffered.left = true ∧ t.rendered.x = -1)
    (renderDown ctx false) (fun t ht => ?_) _ _ ?_
  · have hk := renderDown_keep ctx false t
    exact ⟨hk.2.2.trans ht.1, (by rw [hk.2.1]; exact ht.2.1), hk.1.trans ht.2.2⟩
  refine c4P_setPanY _ _ _ ?_
  refine iterateN_pres
    (fun t => t.panX = dx ∧ t.buffered.left = true ∧ t.rendered.x = -1)
    (renderUp ctx false) (fun t ht => ?_) _ _ ?_
  · have hk := renderUp_keep ctx false t
    exact ⟨hk.2.2.trans ht.1, (by rw [hk.2.1]; exact ht.2.1), hk.1.trans ht.2.2⟩
  exact ⟨by show (0 : ℤ) + dx = dx; omega, rfl, rfl⟩

/-- Witness for the amended claim C4 at a concrete instance. -/
theorem c4_witness :
    (0 : ℤ) < 5 ∧ (5 : ℤ) < ctxEmpty4.scaledTileSize.1 ∧
    (pan ctxEmpty4 initState 5 7).buffered.left = true :=
  ⟨by decide, by decide,
    (c4_amended ctxEmpty4 5 7 (by decide) (by decide)).2.1⟩
